import Mathlib


/-!
# Verification of the transaction posting workflow of a printer-service dashboard

This file gives a shallow embedding of the data model (SQL schema), the two
database triggers (`trg_process_membership_benefits`,
`trg_reduce_inventory_stock_after_purchase`) and the transaction API route
handlers (`POST`, `PUT`, `DELETE` of `/api/transactions`), and proves the
stated properties about them.

Conventions of the embedding:
* SQL `NUMERIC(10,2)` money values have exactly two fractional decimal
  digits, so they are represented exactly in hundredths: an `Int` value `v`
  models the numeric amount `v / 100` (e.g. the stored `150000.00` is
  `15000000`).  Every money operation of the code (sums, products with
  integer quantities, subtracting whole points, the fixed paper rate) stays
  inside hundredths, so this representation is exact.  `INT` columns are
  plain `Int`.
* Dates are day numbers (`Int`); `CURRENT_DATE` is the store's `current_date`.
* Each table is a list of rows; single-statement SQL semantics (primary key,
  foreign key and check constraints, row triggers, statement atomicity) are
  modelled inside each store operation.
* JavaScript string falsiness (`!s`) is emptiness; absent JSON numbers are
  `Option`.
-/

namespace MBD

/-- Inventory row: `inventory(i_id, i_name, i_stock, i_price)`. -/
structure InventoryItem where
  i_id : String
  i_name : String
  i_stock : Int
  i_price : Int
  deriving Repr, DecidableEq

/-- Membership row: `membership(m_id, m_dateexpired, customer_c_id, m_points)`
(creation date is irrelevant to the operations modelled here). -/
structure Membership where
  m_id : Nat
  m_dateexpired : Int
  customer_c_id : String
  m_points : Int
  deriving Repr, DecidableEq

/-- Transaction row: `transaction(t_id, t_datetime, t_totalprice,
t_paymentmethod, customer_c_id, t_paperscount)`. -/
structure Transaction where
  t_id : String
  t_datetime : Int
  t_totalprice : Int
  t_paymentmethod : String
  customer_c_id : String
  t_paperscount : Int
  deriving Repr, DecidableEq

/-- Table `staff_transact(st_s_id, tr_t_id)` association row. -/
structure StaffTransact where
  st_s_id : String
  tr_t_id : String
  deriving Repr, DecidableEq

/-- Table `printer_transaction(printer_p_id, transaction_t_id)` association row. -/
structure PrinterTransaction where
  printer_p_id : String
  transaction_t_id : String
  deriving Repr, DecidableEq

/-- Table `transaction_inventory(transaction_t_id, inventory_i_id, quantity)`
association row. -/
structure TransactionInventory where
  transaction_t_id : String
  inventory_i_id : String
  quantity : Int
  deriving Repr, DecidableEq

/-- The relational store.  `customer`, `staff` and `printer` only matter
through their primary keys here, so they are kept as id lists. -/
structure Store where
  customer : List String
  staff : List String
  printer : List String
  inventory : List InventoryItem
  membership : List Membership
  transaction : List Transaction
  staff_transact : List StaffTransact
  printer_transaction : List PrinterTransaction
  transaction_inventory : List TransactionInventory
  current_date : Int
  deriving Repr, DecidableEq

/-! ## The membership benefits trigger (`trg_process_membership_benefits`)

`BEFORE INSERT ON transaction`: looks up the customer's active membership,
and either redeems points against the new row's total price or accrues
points from it.  The function returns the (possibly modified) row total
together with the membership table after the trigger's `UPDATE`s. -/

/-- PostgreSQL cast `NUMERIC -> INT`: rounds to the nearest integer, ties
away from zero (this is what `NEW.t_totalprice::INT` computes).  On an
amount in hundredths this is `⌊(cents + 50) / 100⌋`, mirrored for negative
amounts. -/
def pgNumericToInt (cents : Int) : Int :=
  if 0 ≤ cents then (cents + 50).fdiv 100 else -((-cents + 50).fdiv 100)

/-- The trigger's `SELECT ... WHERE m.customer_c_id = ... AND m.m_dateexpired
>= CURRENT_DATE` (membership is `UNIQUE` on `customer_c_id`, so at most one
row matches in a well-formed store; `SELECT INTO` takes the first). -/
def findActiveMembership (db : Store) (c : String) : Option Membership :=
  db.membership.find? fun m =>
    m.customer_c_id == c && decide (db.current_date ≤ m.m_dateexpired)

/-- Statement `UPDATE membership SET m_points = m_points + delta WHERE m_id = mid`. -/
def updateMembershipPoints (ms : List Membership) (mid : Nat) (delta : Int) :
    List Membership :=
  ms.map fun m => if m.m_id = mid then { m with m_points := m.m_points + delta } else m

/-- Trigger `trg_process_membership_benefits` on a new row for `customer` with total
price `totalprice`: returns the row total after the trigger and the
membership table after the trigger's updates. -/
def trg_process_membership_benefits (db : Store) (customer : String)
    (totalprice : Int) : Int × List Membership :=
  match findActiveMembership db customer with
  | none => (totalprice, db.membership)
  | some m =>
    if 0 < m.m_points then
      -- v_points_to_use := LEAST(v_membership_points, NEW.t_totalprice::INT)
      let v_points_to_use := min m.m_points (pgNumericToInt totalprice)
      (totalprice - 100 * v_points_to_use,
        updateMembershipPoints db.membership m.m_id (-v_points_to_use))
    else
      -- v_points_earned := FLOOR(NEW.t_totalprice / 10)
      -- `FLOOR(t / 10)` on the numeric amount `totalprice / 100`
      let v_points_earned := totalprice.fdiv 1000
      if 0 < v_points_earned then
        (totalprice, updateMembershipPoints db.membership m.m_id v_points_earned)
      else
        (totalprice, db.membership)

/-! ## The stock reduction trigger (`trg_reduce_inventory_stock_after_purchase`)

`AFTER INSERT ON transaction_inventory`, for each row:
`UPDATE inventory SET i_stock = i_stock - NEW.quantity WHERE i_id = NEW.inventory_i_id`. -/

def trg_reduce_inventory_stock_after_purchase (inv : List InventoryItem)
    (row : TransactionInventory) : List InventoryItem :=
  inv.map fun it =>
    if it.i_id = row.inventory_i_id then { it with i_stock := it.i_stock - row.quantity } else it

/-! ## The `POST /api/transactions` handler (transaction posting) -/

/-- One element of the request's `inventory_items`. -/
structure RequestItem where
  i_id : String
  quantity : Int
  deriving Repr, DecidableEq

/-- The request payload.  A JS-falsy (absent or empty) `printer_p_id` is the
empty string; an absent or non-numeric `printer_papers_count` is `none`. -/
structure TransactionPayload where
  customer_c_id : String
  staff_s_id : String
  printer_p_id : String
  printer_papers_count : Option Int
  inventory_items : List RequestItem
  t_paymentmethod : String
  deriving Repr, DecidableEq

/-- The step of the write sequence whose store call failed; the handler's
catch branch only sees the thrown message, which is distinct per step. -/
inductive FailStep
  | insertTx
  | staffLink
  | printerLink
  | inventoryLink
  deriving Repr, DecidableEq

/-- The distinct error responses of the POST handler. -/
inductive PostError
  | validationError
  | itemNotFound (i_id : String)
  | insufficientStock (i_name : String) (available requested : Int)
  | printerNotFound (p_id : String)
  | opFailed (step : FailStep)
  deriving Repr, DecidableEq

/-- Constant `const PRINTER_USAGE_PRICE_PER_PAPER = 500` (an amount of 500, in
hundredths). -/
def PRINTER_USAGE_PRICE_PER_PAPER : Int := 50000

/-- Test `typeof printer_papers_count === 'number' && printer_papers_count > 0`. -/
def papersOk (req : TransactionPayload) : Bool :=
  match req.printer_papers_count with
  | some n => decide (0 < n)
  | none => false

/-- Query `SELECT i_price, i_stock, i_name FROM inventory WHERE i_id = i` (single). -/
def lookupInventory (db : Store) (i : String) : Option InventoryItem :=
  db.inventory.find? fun it => it.i_id == i

/-- A row prepared for insertion into `transaction_inventory`. -/
structure TIInsert where
  inventory_i_id : String
  quantity : Int
  deriving Repr, DecidableEq

/-- Step 1 of POST: the `for (const item of inventory_items)` loop.  Looks up
each item, fails fast on a missing item or insufficient stock, and otherwise
accumulates `totalTransactionPrice += i_price * quantity` and pushes the
prepared `transaction_inventory` insert. -/
def processItems (db : Store) (acc : Int) (inserts : List TIInsert) :
    List RequestItem → Except PostError (Int × List TIInsert)
  | [] => .ok (acc, inserts)
  | item :: rest =>
    match lookupInventory db item.i_id with
    | none => .error (.itemNotFound item.i_id)
    | some inventoryData =>
      if inventoryData.i_stock < item.quantity then
        .error (.insufficientStock inventoryData.i_name inventoryData.i_stock item.quantity)
      else
        processItems db (acc + inventoryData.i_price * item.quantity)
          (inserts ++ [⟨item.i_id, item.quantity⟩]) rest

/-- Step 2 of POST: `SELECT t_id ... ORDER BY t_id DESC LIMIT 1`, then
`parseInt(t_id.substring(1)) + 1` rendered as `` `T${....padStart(5,'0')}` ``;
`'T00001'` when the table is empty.  (`parseInt` of a non-numeric suffix is
NaN; canonical ids are all-digit suffixes, for which `toNat?` agrees.) -/
def padStart5 (s : String) : String :=
  if s.length < 5 then String.mk (List.replicate (5 - s.length) '0') ++ s else s

def genTxId (ts : List Transaction) : String :=
  match (ts.map Transaction.t_id).max? with
  | some lastId => "T" ++ padStart5 (toString ((lastId.drop 1).toNat?.getD 0 + 1))
  | none => "T00001"

/-- Statement `INSERT INTO transaction`: the BEFORE trigger adjusts the row's total and
the membership table; the statement is atomic, so a primary-key, foreign-key
or `CHECK (t_totalprice >= 0)` violation leaves the store untouched
(including the trigger's updates).  Returns the persisted row. -/
def insertTransaction (db : Store) (t : Transaction) :
    Except Unit (Store × Transaction) :=
  let r := trg_process_membership_benefits db t.customer_c_id t.t_totalprice
  let row := { t with t_totalprice := r.1 }
  if db.transaction.any (fun x => x.t_id == t.t_id) then .error ()
  else if ¬ db.customer.contains t.customer_c_id then .error ()
  else if row.t_totalprice < 0 then .error ()
  else .ok ({ db with transaction := db.transaction ++ [row], membership := r.2 }, row)

/-- Statement `INSERT INTO staff_transact (st_s_id, tr_t_id)` with its FK/PK checks. -/
def insertStaffTransact (db : Store) (s t : String) : Except Unit Store :=
  if ¬ db.staff.contains s then .error ()
  else if ¬ db.transaction.any (fun x => x.t_id == t) then .error ()
  else if db.staff_transact.any (fun r => r.st_s_id == s && r.tr_t_id == t) then .error ()
  else .ok { db with staff_transact := db.staff_transact ++ [⟨s, t⟩] }

/-- Statement `INSERT INTO printer_transaction (printer_p_id, transaction_t_id)`. -/
def insertPrinterTransaction (db : Store) (p t : String) : Except Unit Store :=
  if ¬ db.printer.contains p then .error ()
  else if ¬ db.transaction.any (fun x => x.t_id == t) then .error ()
  else if db.printer_transaction.any
      (fun r => r.printer_p_id == p && r.transaction_t_id == t) then .error ()
  else .ok { db with printer_transaction := db.printer_transaction ++ [⟨p, t⟩] }

/-- Batch `INSERT INTO transaction_inventory`: one atomic statement.  Each
inserted row fires `trg_reduce_inventory_stock_after_purchase`; any PK, FK,
`CHECK (quantity > 0)` or `CHECK (i_stock >= 0)` violation rolls the whole
statement back (rows and stock updates alike). -/
def insertTransactionInventory (db : Store) (rows : List TransactionInventory) :
    Except Unit Store :=
  if ¬ (rows.map fun r => (r.transaction_t_id, r.inventory_i_id)).Nodup then .error ()
  else if rows.any (fun r => db.transaction_inventory.any
      (fun x => x.transaction_t_id == r.transaction_t_id &&
                x.inventory_i_id == r.inventory_i_id)) then .error ()
  else if rows.any (fun r => ¬ db.transaction.any (fun x => x.t_id == r.transaction_t_id)) then
    .error ()
  else if rows.any (fun r => (lookupInventory db r.inventory_i_id).isNone) then .error ()
  else if rows.any (fun r => r.quantity ≤ 0) then .error ()
  else
    let inv2 := rows.foldl trg_reduce_inventory_stock_after_purchase db.inventory
    if inv2.any (fun it => it.i_stock < 0) then .error ()
    else .ok { db with transaction_inventory := db.transaction_inventory ++ rows,
                       inventory := inv2 }

/-- Does any association row reference transaction `t` (the three
`ON DELETE RESTRICT` foreign keys into `transaction`)? -/
def referencedByAssoc (db : Store) (t : String) : Bool :=
  db.staff_transact.any (fun r => r.tr_t_id == t) ||
  db.printer_transaction.any (fun r => r.transaction_t_id == t) ||
  db.transaction_inventory.any (fun r => r.transaction_t_id == t)

/-- Statement `DELETE FROM transaction WHERE t_id = t` as issued by the POST catch
branch: blocked (an error the caller ignores) when an association row still
references the transaction, because of `ON DELETE RESTRICT`. -/
def deleteTransactionRow (db : Store) (t : String) : Store :=
  if referencedByAssoc db t then db
  else { db with transaction := db.transaction.filter fun x => !(x.t_id == t) }

/-- The POST handler: validation, per-line stock reservation and price
accumulation, printer-service charge, id generation, then the write sequence
(transaction row with benefits trigger, staff link, optional printer link,
inventory lines with stock trigger); any failure inside the write sequence
is caught, answered with the compensating
`supabase.from('transaction').delete().eq('t_id', newTxId)`, and returned.
Returns the response together with the store after the request. -/
def postTransaction (db : Store) (req : TransactionPayload) :
    Except PostError (String × Int) × Store :=
  if req.customer_c_id = "" ∨ req.staff_s_id = "" ∨ req.t_paymentmethod = "" ∨
      (req.inventory_items = [] ∧ (req.printer_p_id = "" ∨ papersOk req = false)) then
    (.error .validationError, db)
  else if req.inventory_items.any (fun item => item.i_id == "" || decide (item.quantity ≤ 0)) then
    (.error .validationError, db)
  else if req.printer_p_id ≠ "" ∧ papersOk req = false then
    (.error .validationError, db)
  else
    match processItems db 0 [] req.inventory_items with
    | .error e => (.error e, db)
    | .ok (subtotal, transactionInventoryInserts) =>
      match (if req.printer_p_id ≠ "" ∧ papersOk req = true then
               if db.printer.contains req.printer_p_id then
                 Except.ok (subtotal +
                   PRINTER_USAGE_PRICE_PER_PAPER * req.printer_papers_count.getD 0)
               else Except.error (PostError.printerNotFound req.printer_p_id)
             else Except.ok subtotal) with
      | .error e => (.error e, db)
      | .ok totalTransactionPrice =>
        let newTxId := genTxId db.transaction
        match insertTransaction db
            { t_id := newTxId, t_datetime := db.current_date,
              t_totalprice := totalTransactionPrice,
              t_paymentmethod := req.t_paymentmethod,
              customer_c_id := req.customer_c_id,
              t_paperscount := req.printer_papers_count.getD 0 } with
        | .error _ => (.error (.opFailed .insertTx), deleteTransactionRow db newTxId)
        | .ok (db1, insertedTransaction) =>
          match insertStaffTransact db1 req.staff_s_id newTxId with
          | .error _ => (.error (.opFailed .staffLink), deleteTransactionRow db1 newTxId)
          | .ok db2 =>
            match (if req.printer_p_id ≠ "" then insertPrinterTransaction db2 req.printer_p_id newTxId
                   else .ok db2) with
            | .error _ => (.error (.opFailed .printerLink), deleteTransactionRow db2 newTxId)
            | .ok db3 =>
              match (if transactionInventoryInserts ≠ [] then
                       insertTransactionInventory db3 (transactionInventoryInserts.map fun item =>
                         { transaction_t_id := newTxId, inventory_i_id := item.inventory_i_id,
                           quantity := item.quantity })
                     else .ok db3) with
              | .error _ => (.error (.opFailed .inventoryLink), deleteTransactionRow db3 newTxId)
              | .ok db4 =>
                (.ok (insertedTransaction.t_id, insertedTransaction.t_totalprice), db4)

/-! ## The `PUT /api/transactions` handler (top-level update) -/

inductive PutError
  | validationError
  | notFound
  | storeError
  deriving Repr, DecidableEq

/-- PUT: `UPDATE transaction SET customer_c_id = ..., t_paymentmethod = ...
WHERE t_id = ...` returning the updated rows; an empty result is a 404.  A
matched row whose new `customer_c_id` violates the FK into `customer` makes
the update fail (500) with no change. -/
def putTransaction (db : Store) (t_id customer_c_id t_paymentmethod : String) :
    Except PutError Transaction × Store :=
  if t_id = "" ∨ customer_c_id = "" ∨ t_paymentmethod = "" then
    (.error .validationError, db)
  else
    match db.transaction.filter (fun x => x.t_id == t_id) with
    | [] => (.error .notFound, db)
    | m :: _ =>
      if ¬ db.customer.contains customer_c_id then (.error .storeError, db)
      else
        (.ok { m with customer_c_id := customer_c_id, t_paymentmethod := t_paymentmethod },
         { db with transaction := db.transaction.map fun x =>
             if x.t_id == t_id then
               { x with customer_c_id := customer_c_id, t_paymentmethod := t_paymentmethod }
             else x })

/-! ## The `DELETE /api/transactions` handler (transaction reversal) -/

inductive ReverseError
  | missingId
  | notFound
  deriving Repr, DecidableEq

/-- Step 2 of DELETE, one line: write back `snapshot + quantity`; a line
whose join found no stock information is skipped with a warning, and a
write the store rejects (`CHECK (i_stock >= 0)`) is logged without failing
the reversal. -/
def restoreStep (inv : List InventoryItem)
    (rs : TransactionInventory × Option InventoryItem) : List InventoryItem :=
  match rs.2 with
  | none => inv
  | some inventoryDetails =>
    if inventoryDetails.i_stock + rs.1.quantity < 0 then inv
    else inv.map fun it =>
      if it.i_id = rs.1.inventory_i_id then
        { it with i_stock := inventoryDetails.i_stock + rs.1.quantity }
      else it

/-- Step 2 of DELETE: the `for (const item of transactionInventory)` loop. -/
def restoreStockFold (inv : List InventoryItem)
    (fetched : List (TransactionInventory × Option InventoryItem)) :
    List InventoryItem :=
  fetched.foldl restoreStep inv

/-- DELETE: fetch the transaction's inventory lines joined with the current
stock snapshot; per line write back `snapshot + quantity` (skipping a line
whose join found no stock information, and logging — not failing — a write
the store rejects); delete the three kinds of association rows; finally
delete the transaction row itself, answering 404 when that delete affected
zero rows. -/
def reverseTransaction (db : Store) (t_id : String) :
    Except ReverseError Unit × Store :=
  if t_id = "" then (.error .missingId, db)
  else
    let transactionInventory :=
      (db.transaction_inventory.filter fun r => r.transaction_t_id == t_id).map
        fun r => (r, lookupInventory db r.inventory_i_id)
    let inv2 := restoreStockFold db.inventory transactionInventory
    let db1 : Store :=
      { db with
          inventory := inv2,
          transaction_inventory := db.transaction_inventory.filter
            (fun r => !(r.transaction_t_id == t_id)),
          printer_transaction := db.printer_transaction.filter
            (fun r => !(r.transaction_t_id == t_id)),
          staff_transact := db.staff_transact.filter (fun r => !(r.tr_t_id == t_id)) }
    let remaining := db1.transaction.filter (fun x => !(x.t_id == t_id))
    let db2 : Store := { db1 with transaction := remaining }
    if db1.transaction.length = remaining.length then (.error .notFound, db2)
    else (.ok (), db2)

/-! ## Store well-formedness

The constraints the schema maintains between statements: the three
association tables' foreign keys into `transaction`, and non-negative
stock (`CHECK (i_stock >= 0)`). -/

def WF (db : Store) : Prop :=
  (∀ r ∈ db.transaction_inventory, ∃ t ∈ db.transaction, t.t_id = r.transaction_t_id) ∧
  (∀ r ∈ db.staff_transact, ∃ t ∈ db.transaction, t.t_id = r.tr_t_id) ∧
  (∀ r ∈ db.printer_transaction, ∃ t ∈ db.transaction, t.t_id = r.transaction_t_id) ∧
  (∀ it ∈ db.inventory, 0 ≤ it.i_stock)

instance (db : Store) : Decidable (WF db) := by
  unfold WF; infer_instance

end MBD

deriving instance DecidableEq for Except

instance : DecidableEq Unit := fun _ _ => isTrue rfl

namespace MBD

/-! ## General lemmas -/

def c9Db : Store :=
  { customer := ["C00002"], staff := [], printer := [],
    inventory := [],
    membership := [⟨7, -3, "C00002", 500⟩],
    transaction := [], staff_transact := [], printer_transaction := [],
    transaction_inventory := [], current_date := 0 }

def c4Db : Store :=
  { customer := ["C00001"], staff := [], printer := [],
    inventory := [],
    membership := [⟨1, 100, "C00001", 0⟩],
    transaction := [], staff_transact := [], printer_transaction := [],
    transaction_inventory := [], current_date := 0 }

def c1Db : Store :=
  { customer := ["C00001"], staff := [], printer := [],
    inventory := [],
    membership := [⟨1, 100, "C00001", 2⟩],
    transaction := [], staff_transact := [], printer_transaction := [],
    transaction_inventory := [], current_date := 0 }

def c10Db : Store :=
  { customer := ["C00001", "C00002"], staff := ["S00001"], printer := [],
    inventory := [⟨"I00001", "Ink", 48, 15000000⟩],
    membership := [⟨1, 100, "C00001", 10⟩],
    transaction := [⟨"T00001", 0, 29000000, "Cash", "C00001", 0⟩],
    staff_transact := [⟨"S00001", "T00001"⟩], printer_transaction := [],
    transaction_inventory := [⟨"T00001", "I00001", 2⟩], current_date := 0 }

def c6Db : Store :=
  { customer := ["C00001"], staff := ["S00001"], printer := [],
    inventory := [⟨"I00001", "Ink", 48, 15000000⟩],
    membership := [],
    transaction := [⟨"T00001", 0, 29000000, "Cash", "C00001", 0⟩],
    staff_transact := [⟨"S00001", "T00001"⟩], printer_transaction := [],
    transaction_inventory := [⟨"T00001", "I00001", 2⟩], current_date := 0 }

def c3Db : Store :=
  { customer := ["C00001"], staff := ["S00001"], printer := [],
    inventory := [⟨"I00001", "Ink", 50, 15000000⟩], membership := [],
    transaction := [], staff_transact := [], printer_transaction := [],
    transaction_inventory := [], current_date := 0 }

/-- A request whose first line references a missing item and whose second
line requests 60 of item `I00001` against a stock of 50. -/
def c3BadReq : TransactionPayload :=
  { customer_c_id := "C00001", staff_s_id := "S00001", printer_p_id := "",
    printer_papers_count := none,
    inventory_items := [⟨"IXXXXX", 1⟩, ⟨"I00001", 60⟩], t_paymentmethod := "Cash" }

/-- The spec's scenario: a single line requesting 60 against a stock of 50. -/
def c3Req : TransactionPayload :=
  { customer_c_id := "C00001", staff_s_id := "S00001", printer_p_id := "",
    printer_papers_count := none,
    inventory_items := [⟨"I00001", 60⟩], t_paymentmethod := "Cash" }

def c5Db : Store :=
  { customer := ["C00001"], staff := ["S00001"], printer := [],
    inventory := [⟨"I00001", "Ink", 50, 15000000⟩], membership := [],
    transaction := [], staff_transact := [], printer_transaction := [],
    transaction_inventory := [], current_date := 0 }

/-- A request that duplicates an inventory line: the reservation loop
accepts both lines, but the batch `transaction_inventory` insert violates
the composite primary key and fails after the transaction row and the
staff link were committed. -/
def c5DupReq : TransactionPayload :=
  { customer_c_id := "C00001", staff_s_id := "S00001", printer_p_id := "",
    printer_papers_count := none,
    inventory_items := [⟨"I00001", 1⟩, ⟨"I00001", 2⟩], t_paymentmethod := "Cash" }

/-- A request naming a staff member who does not exist: the staff-link
insert fails right after the transaction row was committed. -/
def c5StaffReq : TransactionPayload :=
  { customer_c_id := "C00001", staff_s_id := "S00009", printer_p_id := "",
    printer_papers_count := none,
    inventory_items := [⟨"I00001", 1⟩], t_paymentmethod := "Cash" }

/-- The spec's candidate-total formula:
`Σ (quantity × unitPrice) + (paperCount > 0 ? paperCount × FIXED_PAPER_RATE : 0)`
(written from the claim's words, to be compared with what the code
computes). -/
def lineCharge (db : Store) (it : RequestItem) : Int :=
  ((lookupInventory db it.i_id).map InventoryItem.i_price).getD 0 * it.quantity

def specCandidateTotal (db : Store) (req : TransactionPayload) : Int :=
  (req.inventory_items.map (lineCharge db)).sum +
    (if req.printer_p_id ≠ "" ∧ papersOk req = true then
       PRINTER_USAGE_PRICE_PER_PAPER * req.printer_papers_count.getD 0
     else 0)

/-- The `transaction_inventory` rows a successful posting inserts. -/
def newTIRows (db : Store) (req : TransactionPayload) : List TransactionInventory :=
  req.inventory_items.map fun it => ⟨genTxId db.transaction, it.i_id, it.quantity⟩

def c8Db : Store :=
  { customer := ["C00001"], staff := ["S00001"], printer := ["P00001"],
    inventory := [⟨"I00001", "Ink", 50, 15000000⟩],
    membership := [⟨1, 100, "C00001", 10000⟩],
    transaction := [], staff_transact := [], printer_transaction := [],
    transaction_inventory := [], current_date := 0 }

/-- Two units of a 150000.00 item plus a printer service of 3 papers. -/
def c8Req : TransactionPayload :=
  { customer_c_id := "C00001", staff_s_id := "S00001", printer_p_id := "P00001",
    printer_papers_count := some 3,
    inventory_items := [⟨"I00001", 2⟩], t_paymentmethod := "Card" }

/-- The stock a single-row lookup reports for item id `i`. -/
def stockOfInv (inv : List InventoryItem) (i : String) : Option Int :=
  (inv.find? fun it => it.i_id == i).map InventoryItem.i_stock

def stockOf (db : Store) (i : String) : Option Int :=
  (lookupInventory db i).map InventoryItem.i_stock

/-- The total quantity a row list carries for item id `i`. -/
def qtySum (rows : List TransactionInventory) (i : String) : Int :=
  ((rows.filter fun r => r.inventory_i_id == i).map TransactionInventory.quantity).sum

/-- The canonical transaction id for value `k`: exactly what the handler
renders (`'T' + String(k).padStart(5, '0')`). -/
def canonicalTid (k : Nat) : String := "T" ++ padStart5 (toString k)

/-- What `parseInt(t_id.substring(1))` reads back from an id (on an
all-digit suffix, where `parseInt` and `toNat?` agree). -/
def tidValue (s : String) : Nat := ((s.drop 1).toNat?).getD 0

/-- Decimal digits of `n`, most significant first (no leading zeros). -/
def natChars (n : Nat) : List Char :=
  if h : n < 10 then [Nat.digitChar n]
  else natChars (n / 10) ++ [Nat.digitChar (n % 10)]
  termination_by n
  decreasing_by
    have h10 : 10 ≤ n := not_lt.mp h
    exact Nat.div_lt_self (by omega) (by omega)

/-- The `j` least significant decimal digits of `k`, most significant
first (with leading zeros). -/
def digitsFixedR : Nat → Nat → List Char
  | 0, _ => []
  | j + 1, k => digitsFixedR j (k / 10) ++ [Nat.digitChar (k % 10)]

def c7Ts : List Transaction :=
  [⟨"T00005", 0, 0, "", "", 0⟩, ⟨"T00002", 0, 0, "", "", 0⟩]

theorem updateMembershipPoints_zero (ms : List Membership) (mid : Nat) :
    updateMembershipPoints ms mid 0 = ms := by
  unfold updateMembershipPoints
  have : ∀ m : Membership,
      (if m.m_id = mid then { m with m_points := m.m_points + 0 } else m) = m := by
    intro m
    cases m
    simp
  simp only [this, List.map_id']

/-! ## C9: no active membership means no benefit and untouched memberships -/

/-- Claim C9. For a customer with no active membership (every membership row of
that customer has expired), the benefits trigger leaves the transaction's
total price unchanged and leaves the membership table exactly as it was. -/
theorem benefits_no_active_membership (db : Store) (c : String) (total : Int)
    (h : ∀ m ∈ db.membership, m.customer_c_id = c → m.m_dateexpired < db.current_date) :
    trg_process_membership_benefits db c total = (total, db.membership) := by
  have hnone : findActiveMembership db c = none := by
    unfold findActiveMembership
    rw [List.find?_eq_none]
    intro m hm
    by_cases hc : m.customer_c_id = c
    · have := h m hm hc
      simp [hc, not_le.mpr this]
    · simp [hc]
  unfold trg_process_membership_benefits
  rw [hnone]

/-- Witness for C9 at a concrete store whose only membership (of the posting
customer) is expired. -/
theorem benefits_no_active_membership_witness :
    (∀ m ∈ c9Db.membership, m.customer_c_id = "C00002" →
      m.m_dateexpired < c9Db.current_date) ∧
    trg_process_membership_benefits c9Db "C00002" 1234500 = (1234500, c9Db.membership) :=
  ⟨by decide, benefits_no_active_membership c9Db "C00002" 1234500 (by decide)⟩

/-! ## C4: active membership with zero points accrues `floor(total / 10)` -/

/-- Claim C4. For a customer whose active membership holds `points = 0` and a
non-negative candidate total, the benefits trigger keeps the total unchanged
and adds `FLOOR(total / 10)` points (`total.fdiv 1000` in hundredths) to
that membership (adding zero — i.e. performing no update — when the total
is below 10). -/
theorem benefits_zero_points_accrual (db : Store) (c : String) (total : Int)
    (m : Membership) (hm : findActiveMembership db c = some m)
    (hp : m.m_points = 0) (ht : 0 ≤ total) :
    trg_process_membership_benefits db c total =
      (total, updateMembershipPoints db.membership m.m_id (total.fdiv 1000)) := by
  unfold trg_process_membership_benefits
  rw [hm]
  simp only [hp, lt_irrefl, if_false]
  by_cases hpos : 0 < total.fdiv 1000
  · simp [hpos]
  · have hge : (0 : Int) ≤ total.fdiv 1000 := Int.fdiv_nonneg ht (by norm_num)
    have h0 : total.fdiv 1000 = 0 := le_antisymm (not_lt.mp hpos) hge
    simp [hpos, h0, updateMembershipPoints_zero]

/-- Witness for C4: candidate total 150000.00 (hundredths `15000000`) earns
15000 points, total kept. -/
theorem benefits_zero_points_accrual_witness :
    findActiveMembership c4Db "C00001" = some ⟨1, 100, "C00001", 0⟩ ∧
    (0 : Int) ≤ 15000000 ∧
    trg_process_membership_benefits c4Db "C00001" 15000000 =
      (15000000, updateMembershipPoints c4Db.membership 1 (Int.fdiv 15000000 1000)) :=
  ⟨by decide, by decide,
    benefits_zero_points_accrual c4Db "C00001" 15000000 ⟨1, 100, "C00001", 0⟩
      (by decide) rfl (by decide)⟩

/-! ## C1: points redemption rounds where the spec floors

The trigger computes `LEAST(v_membership_points, NEW.t_totalprice::INT)`.
In PostgreSQL the cast `NUMERIC -> INT` rounds to the nearest integer (ties
away from zero); it does not floor.  For a candidate total of `1.50` and a
2-point membership the trigger uses `LEAST(2, 2) = 2` points and persists a
total of `-0.50` — below zero, contradicting both the claim
(`adjustedTotal = c - min(points, floor(c)) ≥ 0`, here `1.50 - 1 = 0.50`)
and the store's own `CHECK (t_totalprice >= 0)`, which then aborts the
insert. -/

/-- Claim C1 (failing input). Candidate total `1.50` (hundredths `150`)
against an active membership with 2 points: the code's benefit application
yields total `-0.50` (hundredths `-50`, draining both points), whereas the
claim's `c - min(points, floor(c))` is `1.50 - min(2, 1) = 0.50 ≥ 0`. -/
theorem benefits_redemption_rounding_bug :
    (trg_process_membership_benefits c1Db "C00001" 150).1 = -50 ∧
    (trg_process_membership_benefits c1Db "C00001" 150).2 = [⟨1, 100, "C00001", 0⟩] ∧
    (150 : Int) - 100 * min 2 (Int.fdiv 150 100) = 50 ∧
    (trg_process_membership_benefits c1Db "C00001" 150).1 < 0 :=
  ⟨by decide, by decide, by decide, by decide⟩

/-! ## C10: the PUT handler only rewrites owner and payment method -/

/-- Claim C10. For non-empty request fields naming an existing customer: when
a transaction with the requested id exists, the PUT handler succeeds and the
resulting store is the original one with exactly the matching transaction
rows' `customer_c_id` and `t_paymentmethod` replaced — every other field of
those rows (id, timestamp, total price, paper count) and every other table
(associations, inventory stock, membership points) is untouched; when no
such transaction exists, it answers `notFound` and leaves the store
unchanged. -/
theorem putTransaction_frame (db : Store) (t c pm : String)
    (ht : t ≠ "") (hc : c ≠ "") (hpm : pm ≠ "")
    (hcust : db.customer.contains c = true) :
    ((∃ x ∈ db.transaction, x.t_id = t) →
      ∃ row, putTransaction db t c pm =
        (.ok row,
         { db with transaction := db.transaction.map fun x =>
             if x.t_id == t then { x with customer_c_id := c, t_paymentmethod := pm }
             else x })) ∧
    ((∀ x ∈ db.transaction, x.t_id ≠ t) →
      putTransaction db t c pm = (.error .notFound, db)) := by
  have hval : ¬ (t = "" ∨ c = "" ∨ pm = "") := by simp [ht, hc, hpm]
  constructor
  · rintro ⟨x, hx, hxt⟩
    cases hfilter : db.transaction.filter (fun y => y.t_id == t) with
    | nil =>
      exfalso
      have := List.filter_eq_nil.mp hfilter x hx
      simp [hxt] at this
    | cons m ms =>
      refine ⟨{ m with customer_c_id := c, t_paymentmethod := pm }, ?_⟩
      have hc2 : c ∈ db.customer := by simpa using hcust
      unfold putTransaction
      rw [if_neg hval, hfilter]
      simp [hcust, hc2]
  · intro habs
    cases hfilter : db.transaction.filter (fun y => y.t_id == t) with
    | nil =>
      unfold putTransaction
      rw [if_neg hval, hfilter]
    | cons m ms =>
      exfalso
      have hm : m ∈ db.transaction.filter (fun y => y.t_id == t) := by
        rw [hfilter]; exact List.mem_cons_self m ms
      have hpred := List.of_mem_filter hm
      have hmem := List.mem_of_mem_filter hm
      exact habs m hmem (by simpa using hpred)

/-- Witness for C10: reassigning `T00001` to customer `C00002` with payment
method `Card`. -/
theorem putTransaction_frame_witness :
    ("T00001" : String) ≠ "" ∧ ("C00002" : String) ≠ "" ∧ ("Card" : String) ≠ "" ∧
    c10Db.customer.contains "C00002" = true ∧
    (∃ x ∈ c10Db.transaction, x.t_id = "T00001") ∧
    ∃ row, putTransaction c10Db "T00001" "C00002" "Card" =
      (.ok row,
       { c10Db with transaction := c10Db.transaction.map fun x =>
           if x.t_id == "T00001" then
             { x with customer_c_id := "C00002", t_paymentmethod := "Card" }
           else x }) :=
  ⟨by decide, by decide, by decide, by decide, by decide,
    (putTransaction_frame c10Db "T00001" "C00002" "Card"
      (by decide) (by decide) (by decide) (by decide)).1 (by decide)⟩

/-! ## C6: reversal is `notFound` and a no-op the second time -/

/-- Reversing an id that no row references (no transaction row, no
association row) answers `notFound` and leaves the store unchanged. -/
theorem reverse_notFound_of_absent (db : Store) (t : String) (ht : t ≠ "")
    (htx : ∀ x ∈ db.transaction, x.t_id ≠ t)
    (hti : ∀ r ∈ db.transaction_inventory, r.transaction_t_id ≠ t)
    (hpt : ∀ r ∈ db.printer_transaction, r.transaction_t_id ≠ t)
    (hst : ∀ r ∈ db.staff_transact, r.tr_t_id ≠ t) :
    reverseTransaction db t = (.error .notFound, db) := by
  have hfil : db.transaction_inventory.filter (fun r => r.transaction_t_id == t) = [] :=
    List.filter_eq_nil.mpr (by intro r hr; simp [hti r hr])
  have h1 : db.transaction_inventory.filter (fun r => !(r.transaction_t_id == t)) =
      db.transaction_inventory :=
    List.filter_eq_self.mpr (by intro r hr; simp [hti r hr])
  have h2 : db.printer_transaction.filter (fun r => !(r.transaction_t_id == t)) =
      db.printer_transaction :=
    List.filter_eq_self.mpr (by intro r hr; simp [hpt r hr])
  have h3 : db.staff_transact.filter (fun r => !(r.tr_t_id == t)) = db.staff_transact :=
    List.filter_eq_self.mpr (by intro r hr; simp [hst r hr])
  have h4 : db.transaction.filter (fun x => !(x.t_id == t)) = db.transaction :=
    List.filter_eq_self.mpr (by intro x hx; simp [htx x hx])
  unfold reverseTransaction
  rw [if_neg ht]
  simp only [hfil, List.map_nil, List.foldl_nil, h1, h2, h3, h4]
  simp [restoreStockFold]

/-- Claim C6. Reversing a transaction a second time (after a successful first
reversal), and likewise reversing an id that no row references, answers
`notFound` and is a no-op on the store: no stock restoration, no row
deletion. -/
theorem reverse_second_time_noop (db : Store) (t : String) :
    (∀ rdb, reverseTransaction db t = (.ok (), rdb) →
      reverseTransaction rdb t = (.error .notFound, rdb)) ∧
    (t ≠ "" → (∀ x ∈ db.transaction, x.t_id ≠ t) →
      (∀ r ∈ db.transaction_inventory, r.transaction_t_id ≠ t) →
      (∀ r ∈ db.printer_transaction, r.transaction_t_id ≠ t) →
      (∀ r ∈ db.staff_transact, r.tr_t_id ≠ t) →
      reverseTransaction db t = (.error .notFound, db)) := by
  refine ⟨?_, reverse_notFound_of_absent db t⟩
  intro rdb h
  by_cases ht : t = ""
  · rw [reverseTransaction, if_pos ht] at h
    simp at h
  · rw [reverseTransaction, if_neg ht] at h
    set db2 : Store :=
      { db with
          inventory := ((db.transaction_inventory.filter
              (fun r => r.transaction_t_id == t)).map
                (fun r => (r, lookupInventory db r.inventory_i_id))).foldl (fun inv rs =>
              match rs.2 with
              | none => inv
              | some inventoryDetails =>
                if inventoryDetails.i_stock + rs.1.quantity < 0 then inv
                else inv.map fun it =>
                  if it.i_id = rs.1.inventory_i_id then
                    { it with i_stock := inventoryDetails.i_stock + rs.1.quantity }
                  else it) db.inventory,
          transaction := (db.transaction.filter (fun x => !(x.t_id == t))),
          transaction_inventory := db.transaction_inventory.filter
            (fun r => !(r.transaction_t_id == t)),
          printer_transaction := db.printer_transaction.filter
            (fun r => !(r.transaction_t_id == t)),
          staff_transact := db.staff_transact.filter (fun r => !(r.tr_t_id == t)) }
      with hdb2
    by_cases hlen : db.transaction.length =
        (db.transaction.filter (fun x => !(x.t_id == t))).length
    · rw [if_pos hlen] at h
      simp at h
    · rw [if_neg hlen] at h
      have hrdb : rdb = db2 := by
        have := (Prod.ext_iff.mp h).2
        exact this.symm
      subst hrdb
      apply reverse_notFound_of_absent db2 t ht
      · intro x hx
        have : x ∈ db.transaction.filter (fun x => !(x.t_id == t)) := hx
        simpa using List.of_mem_filter this
      · intro r hr
        have : r ∈ db.transaction_inventory.filter (fun r => !(r.transaction_t_id == t)) := hr
        simpa using List.of_mem_filter this
      · intro r hr
        have : r ∈ db.printer_transaction.filter (fun r => !(r.transaction_t_id == t)) := hr
        simpa using List.of_mem_filter this
      · intro r hr
        have : r ∈ db.staff_transact.filter (fun r => !(r.tr_t_id == t)) := hr
        simpa using List.of_mem_filter this

/-- Witness for C6: a successful reversal of `T00001`, whose repetition
answers `notFound` without changing the store, and a reversal of the absent
id `T00009` answering `notFound` on the untouched store. -/
theorem reverse_second_time_noop_witness :
    reverseTransaction c6Db "T00001" = (.ok (), (reverseTransaction c6Db "T00001").2) ∧
    reverseTransaction (reverseTransaction c6Db "T00001").2 "T00001" =
      (.error .notFound, (reverseTransaction c6Db "T00001").2) ∧
    reverseTransaction c6Db "T00009" = (.error .notFound, c6Db) :=
  ⟨by decide,
    (reverse_second_time_noop c6Db "T00001").1 (reverseTransaction c6Db "T00001").2
      (by decide),
    (reverse_second_time_noop c6Db "T00009").2 (by decide) (by decide) (by decide)
      (by decide) (by decide)⟩

/-! ## C3: insufficient stock fails before any write

The reservation loop returns at the *first* failing line, and a missing
item yields `itemNotFound` rather than `insufficientStock`, so the claim
holds as stated only when every referenced item exists (and the request
passes field validation); in every case nothing is written. -/

theorem processItems_insufficient (db : Store) :
    ∀ (items : List RequestItem) (acc : Int) (ins : List TIInsert),
    (∀ item ∈ items, (lookupInventory db item.i_id).isSome = true) →
    (∃ item ∈ items, ∃ inv, lookupInventory db item.i_id = some inv ∧
      inv.i_stock < item.quantity) →
    ∃ n a r, processItems db acc ins items = .error (.insufficientStock n a r)
  | [], _, _, _, hbad => by simp at hbad
  | item :: rest, acc, ins, hex, hbad => by
    obtain ⟨inv, hinv⟩ := Option.isSome_iff_exists.mp (hex item (List.mem_cons_self _ _))
    by_cases hlt : inv.i_stock < item.quantity
    · exact ⟨inv.i_name, inv.i_stock, item.quantity, by
        simp only [processItems]
        rw [hinv]
        simp [hlt]⟩
    · have hbadrest : ∃ it ∈ rest, ∃ inv2, lookupInventory db it.i_id = some inv2 ∧
          inv2.i_stock < it.quantity := by
        obtain ⟨it, hmem, inv1, hinv1, hlt1⟩ := hbad
        rcases List.mem_cons.mp hmem with h | h
        · subst h
          rw [hinv] at hinv1
          cases Option.some.inj hinv1
          exact absurd hlt1 hlt
        · exact ⟨it, h, inv1, hinv1, hlt1⟩
      have hexrest : ∀ it ∈ rest, (lookupInventory db it.i_id).isSome = true :=
        fun it h => hex it (List.mem_cons_of_mem _ h)
      obtain ⟨n, a, r0, hres⟩ := processItems_insufficient db rest
        (acc + inv.i_price * item.quantity) (ins ++ [⟨item.i_id, item.quantity⟩])
        hexrest hbadrest
      exact ⟨n, a, r0, by
        simp only [processItems]
        rw [hinv]
        simpa [hlt] using hres⟩

/-- Claim C3 (amended). For every posting request that passes field validation
and whose inventory lines all reference existing items, if some line's
requested quantity exceeds that item's current stock then `postTransaction`
fails with `insufficientStock` and the store is completely unchanged: no
transaction, association or inventory row is inserted or updated, and no
stock or points value changes.  (As literally stated the claim is false:
when an *earlier* line references a missing item the failure is
`itemNotFound` instead — still with no writes — see the counterexample.) -/
theorem post_insufficient_stock (db : Store) (req : TransactionPayload)
    (hc : req.customer_c_id ≠ "") (hs : req.staff_s_id ≠ "")
    (hpm : req.t_paymentmethod ≠ "")
    (hitems : ∀ item ∈ req.inventory_items, item.i_id ≠ "" ∧ 0 < item.quantity)
    (hprn : req.printer_p_id ≠ "" → papersOk req = true)
    (hex : ∀ item ∈ req.inventory_items, (lookupInventory db item.i_id).isSome = true)
    (hbad : ∃ item ∈ req.inventory_items, ∃ inv,
      lookupInventory db item.i_id = some inv ∧ inv.i_stock < item.quantity) :
    ∃ n a r, postTransaction db req = (.error (.insufficientStock n a r), db) := by
  have hne : req.inventory_items ≠ [] := by
    obtain ⟨item, hmem, -⟩ := hbad
    intro h
    rw [h] at hmem
    cases hmem
  have hval : ¬ (req.customer_c_id = "" ∨ req.staff_s_id = "" ∨
      req.t_paymentmethod = "" ∨
      (req.inventory_items = [] ∧ (req.printer_p_id = "" ∨ papersOk req = false))) := by
    simp [hc, hs, hpm, hne]
  have hfmt : ¬ (req.inventory_items.any
      (fun item => item.i_id == "" || decide (item.quantity ≤ 0)) = true) := by
    rw [List.any_eq_true]
    rintro ⟨x, hx, hb⟩
    have h := hitems x hx
    simp only [Bool.or_eq_true, beq_iff_eq, decide_eq_true_eq] at hb
    rcases hb with hb | hb
    · exact h.1 hb
    · exact absurd hb (not_le.mpr h.2)
  have hprn3 : ¬ (req.printer_p_id ≠ "" ∧ papersOk req = false) := by
    rintro ⟨hp, hfalse⟩
    rw [hprn hp] at hfalse
    cases hfalse
  obtain ⟨n, a, r0, hp⟩ :=
    processItems_insufficient db req.inventory_items 0 [] hex hbad
  refine ⟨n, a, r0, ?_⟩
  unfold postTransaction
  rw [if_neg hval, if_neg hfmt, if_neg hprn3, hp]

/-- Claim C3 (counterexample). A posting request in which a line's requested
quantity (60) exceeds the item's stock (50), yet `postTransaction` fails
with `itemNotFound` — not `insufficientStock` — because an earlier line
references a missing item.  The store is still unchanged. -/
theorem post_insufficient_stock_counterexample :
    (⟨"I00001", 60⟩ : RequestItem) ∈ c3BadReq.inventory_items ∧
    lookupInventory c3Db "I00001" = some ⟨"I00001", "Ink", 50, 15000000⟩ ∧
    (50 : Int) < 60 ∧
    postTransaction c3Db c3BadReq = (.error (.itemNotFound "IXXXXX"), c3Db) :=
  ⟨by decide, by decide, by decide, by decide⟩

/-- Witness for the amended C3: requesting 60 against a stock of 50 fails
with `insufficientStock` and leaves the store unchanged. -/
theorem post_insufficient_stock_witness :
    (∀ item ∈ c3Req.inventory_items, (lookupInventory c3Db item.i_id).isSome = true) ∧
    (∃ item ∈ c3Req.inventory_items, ∃ inv,
      lookupInventory c3Db item.i_id = some inv ∧ inv.i_stock < item.quantity) ∧
    ∃ n a r, postTransaction c3Db c3Req = (.error (.insufficientStock n a r), c3Db) :=
  ⟨by decide,
    ⟨⟨"I00001", 60⟩, by decide, ⟨"I00001", "Ink", 50, 15000000⟩, by decide, by decide⟩,
    post_insufficient_stock c3Db c3Req (by decide) (by decide) (by decide) (by decide)
      (by decide) (by decide)
      ⟨⟨"I00001", 60⟩, by decide, ⟨"I00001", "Ink", 50, 15000000⟩, by decide, by decide⟩⟩

/-! ## Inversion lemmas for the write-sequence steps -/

theorem insertTransaction_ok_inv {db : Store} {t : Transaction} {db1 : Store}
    {row : Transaction} (h : insertTransaction db t = .ok (db1, row)) :
    row = { t with t_totalprice :=
        (trg_process_membership_benefits db t.customer_c_id t.t_totalprice).1 } ∧
    db1 = { db with
              transaction := db.transaction ++ [row],
              membership :=
                (trg_process_membership_benefits db t.customer_c_id t.t_totalprice).2 } ∧
    db.transaction.any (fun x => x.t_id == t.t_id) = false := by
  simp only [insertTransaction] at h
  split at h
  · simp at h
  next h1 =>
    split at h
    · simp at h
    next =>
      split at h
      · simp at h
      next =>
        obtain ⟨hdb, hrow⟩ := Prod.ext_iff.mp (Except.ok.inj h)
        subst hrow
        exact ⟨rfl, hdb.symm, by simpa using h1⟩

theorem insertStaffTransact_ok_inv {db : Store} {s t : String} {db2 : Store}
    (h : insertStaffTransact db s t = .ok db2) :
    db2 = { db with staff_transact := db.staff_transact ++ [⟨s, t⟩] } := by
  simp only [insertStaffTransact] at h
  split at h
  · simp at h
  split at h
  · simp at h
  split at h
  · simp at h
  exact (Except.ok.inj h).symm

theorem insertPrinterTransaction_ok_inv {db : Store} {p t : String} {db3 : Store}
    (h : insertPrinterTransaction db p t = .ok db3) :
    db3 = { db with printer_transaction := db.printer_transaction ++ [⟨p, t⟩] } := by
  simp only [insertPrinterTransaction] at h
  split at h
  · simp at h
  split at h
  · simp at h
  split at h
  · simp at h
  exact (Except.ok.inj h).symm

theorem insertTransactionInventory_ok_inv {db : Store}
    {rows : List TransactionInventory} {db4 : Store}
    (h : insertTransactionInventory db rows = .ok db4) :
    (rows.map fun r => (r.transaction_t_id, r.inventory_i_id)).Nodup ∧
    db4 = { db with
              transaction_inventory := db.transaction_inventory ++ rows,
              inventory :=
                rows.foldl trg_reduce_inventory_stock_after_purchase db.inventory } := by
  simp only [insertTransactionInventory] at h
  split at h
  · simp at h
  next h1 =>
    split at h
    · simp at h
    split at h
    · simp at h
    split at h
    · simp at h
    split at h
    · simp at h
    split at h
    · simp at h
    exact ⟨not_not.mp h1, (Except.ok.inj h).symm⟩

/-- The reservation loop only fails with `itemNotFound` or
`insufficientStock`. -/
theorem processItems_error_shape (db : Store) :
    ∀ (items : List RequestItem) (acc : Int) (ins : List TIInsert) (e : PostError),
    processItems db acc ins items = .error e →
    (∃ i, e = .itemNotFound i) ∨ (∃ n a r, e = .insufficientStock n a r)
  | [], _, _, _, h => by simp [processItems] at h
  | item :: rest, acc, ins, e, h => by
    simp only [processItems] at h
    cases hinv : lookupInventory db item.i_id with
    | none =>
      rw [hinv] at h
      simp at h
      exact .inl ⟨item.i_id, h.symm⟩
    | some inv =>
      rw [hinv] at h
      by_cases hlt : inv.i_stock < item.quantity
      · have h2 : Except.error (PostError.insufficientStock inv.i_name inv.i_stock
            item.quantity) = (Except.error e : Except PostError (Int × List TIInsert)) := by
          rw [← h]
          simp [hlt]
        exact .inr ⟨_, _, _, (Except.error.inj h2).symm⟩
      · refine processItems_error_shape db rest (acc + inv.i_price * item.quantity)
          (ins ++ [⟨item.i_id, item.quantity⟩]) e ?_
        rw [← h]
        simp [hlt]

/-! ## C5: compensation after a failed write step -/

/-- Claim C5 (amended). For every posting in which a step after the
transaction-row insert fails (staff link, printer link, or inventory-line
insert), `postTransaction` issues the compensating
`DELETE FROM transaction WHERE t_id = newTxId` and returns the failure.
Inventory stock decremented within the posting is never re-incremented by
this compensation — indeed the final inventory table is exactly the
original one, because the stock decrement is atomic with the (failed)
inventory-line insert.  The delete actually removes the transaction row
when the staff link failed (no association row references it yet); once an
association row has been committed (printer-link or inventory-line
failure), the store's `ON DELETE RESTRICT` blocks the delete and the row
remains. -/
theorem post_compensation (db : Store) (req : TransactionPayload) (s : FailStep)
    (fdb : Store) (hwf : WF db)
    (h : postTransaction db req = (.error (.opFailed s), fdb))
    (hns : s ≠ .insertTx) :
    fdb.inventory = db.inventory ∧
    (s = .staffLink → fdb.transaction = db.transaction) ∧
    ((s = .printerLink ∨ s = .inventoryLink) →
      ∃ row ∈ fdb.transaction, row.t_id = genTxId db.transaction) := by
  obtain ⟨hfk_ti, hfk_st, hfk_pt, hstock⟩ := hwf
  simp only [postTransaction] at h
  split at h
  · simp at h
  split at h
  · simp at h
  split at h
  · simp at h
  split at h
  case _ e heq =>
    -- reservation loop failed: its error is never `opFailed`
    exfalso
    rcases processItems_error_shape db req.inventory_items 0 [] e heq with ⟨i, hi⟩ | ⟨n, a, r, hr⟩
    · subst hi; simp at h
    · subst hr; simp at h
  case _ subtotal inserts heq =>
    split at h
    case _ e heq2 =>
      -- printer lookup failed: its error is `printerNotFound`
      exfalso
      split at heq2
      · split at heq2
        · simp at heq2
        · rw [← Except.error.inj heq2] at h
          simp at h
      · simp at heq2
    case _ total heq2 =>
      split at h
      case _ u heqTx =>
        -- the transaction insert itself failed
        exfalso
        injection h with h1 h2
        have := PostError.opFailed.inj (Except.error.inj h1)
        exact hns this.symm
      case _ db1 row heqTx =>
        obtain ⟨hrow, hdb1, hany⟩ := insertTransaction_ok_inv heqTx
        have hfresh : ∀ x ∈ db.transaction, ¬ x.t_id = genTxId db.transaction := by
          simpa using hany
        have hrowid : row.t_id = genTxId db.transaction := by rw [hrow]
        split at h
        case _ u heqSt =>
          -- staff link failed: nothing references the new row, so the
          -- compensating delete removes it
          injection h with h1 h2
          have hsl : s = .staffLink := (PostError.opFailed.inj (Except.error.inj h1)).symm
          have hnoref : referencedByAssoc db1 (genTxId db.transaction) = false := by
            rw [hdb1]
            unfold referencedByAssoc
            simp only [Bool.or_eq_false_iff]
            refine ⟨⟨?_, ?_⟩, ?_⟩
            · rw [List.any_eq_false]
              intro r hr
              obtain ⟨tx, htx, hid⟩ := hfk_st r hr
              simp [hid ▸ hfresh tx htx]
            · rw [List.any_eq_false]
              intro r hr
              obtain ⟨tx, htx, hid⟩ := hfk_pt r hr
              simp [hid ▸ hfresh tx htx]
            · rw [List.any_eq_false]
              intro r hr
              obtain ⟨tx, htx, hid⟩ := hfk_ti r hr
              simp [hid ▸ hfresh tx htx]
          have hfdb : fdb = deleteTransactionRow db1 (genTxId db.transaction) := h2.symm
          have hdel : deleteTransactionRow db1 (genTxId db.transaction) =
              { db1 with transaction := db.transaction } := by
            unfold deleteTransactionRow
            rw [if_neg (by simp [hnoref])]
            congr 1
            rw [hdb1]
            simp only [List.filter_append]
            rw [List.filter_eq_self.mpr (by intro x hx; simpa using hfresh x hx)]
            simp [hrowid]
          rw [hfdb, hdel, hdb1]
          refine ⟨rfl, fun _ => rfl, ?_⟩
          intro hcontra
          rw [hsl] at hcontra
          rcases hcontra with hcontra | hcontra <;> cases hcontra
        case _ db2 heqSt =>
          have hdb2 := insertStaffTransact_ok_inv heqSt
          have hstaffmem : (⟨req.staff_s_id, genTxId db.transaction⟩ : StaffTransact) ∈
              db2.staff_transact := by
            rw [hdb2]
            simp
          split at h
          case _ u heqPr =>
            -- printer link failed: the staff link blocks the delete
            injection h with h1 h2
            have hpl : s = .printerLink := (PostError.opFailed.inj (Except.error.inj h1)).symm
            have href : referencedByAssoc db2 (genTxId db.transaction) = true := by
              unfold referencedByAssoc
              refine Bool.or_eq_true_iff.mpr (.inl (Bool.or_eq_true_iff.mpr (.inl ?_)))
              exact List.any_eq_true.mpr ⟨_, hstaffmem, by simp⟩
            have hfdb : fdb = db2 := by
              rw [← h2]
              unfold deleteTransactionRow
              rw [if_pos (by simp [href])]
            have hinv2 : db2.inventory = db.inventory := by rw [hdb2, hdb1]
            have htx2 : db2.transaction = db.transaction ++ [row] := by rw [hdb2, hdb1]
            refine ⟨by rw [hfdb, hinv2], ?_, ?_⟩
            · intro hcontra
              rw [hpl] at hcontra
              cases hcontra
            · intro _
              exact ⟨row, by rw [hfdb, htx2]; simp, hrowid⟩
          case _ db3 heqPr =>
            -- printer link (if any) succeeded
            have hdb3 : db3.staff_transact = db2.staff_transact ∧
                db3.transaction = db2.transaction ∧ db3.inventory = db2.inventory := by
              split at heqPr
              · have := insertPrinterTransaction_ok_inv heqPr
                rw [this]
                exact ⟨rfl, rfl, rfl⟩
              · rw [Except.ok.inj heqPr]
                exact ⟨rfl, rfl, rfl⟩
            split at h
            case _ u heqTi =>
              -- inventory-line insert failed: the staff link blocks the
              -- delete; the failed statement changed neither rows nor stock
              injection h with h1 h2
              have hil : s = .inventoryLink :=
                (PostError.opFailed.inj (Except.error.inj h1)).symm
              have href : referencedByAssoc db3 (genTxId db.transaction) = true := by
                unfold referencedByAssoc
                refine Bool.or_eq_true_iff.mpr (.inl (Bool.or_eq_true_iff.mpr (.inl ?_)))
                exact List.any_eq_true.mpr ⟨_, hdb3.1 ▸ hstaffmem, by simp⟩
              have hfdb : fdb = db3 := by
                rw [← h2]
                unfold deleteTransactionRow
                rw [if_pos (by simp [href])]
              have hinv3 : db3.inventory = db.inventory := by
                rw [hdb3.2.2, hdb2, hdb1]
              have htx3 : db3.transaction = db.transaction ++ [row] := by
                rw [hdb3.2.1, hdb2, hdb1]
              refine ⟨by rw [hfdb, hinv3], ?_, ?_⟩
              · intro hcontra
                rw [hil] at hcontra
                cases hcontra
              · intro _
                exact ⟨row, by rw [hfdb, htx3]; simp, hrowid⟩
            case _ db4 heqTi =>
              -- everything succeeded: contradicts the error result
              simp at h

/-- Claim C5 (counterexample). A posting whose inventory-line insert fails
(after the transaction row and staff link were written): the handler issues
the compensating delete and returns the failure, but the staff-link row
already references the transaction, so `ON DELETE RESTRICT` blocks the
delete and the transaction row `T00001` is still present afterwards — the
claim's "performs a compensating delete of the transaction row" does not
remove the row on this input.  (Stock is unchanged, as the claim says.) -/
theorem post_compensation_counterexample :
    (postTransaction c5Db c5DupReq).1 = .error (.opFailed .inventoryLink) ∧
    (postTransaction c5Db c5DupReq).2.transaction.any (fun x => x.t_id == "T00001") = true ∧
    (postTransaction c5Db c5DupReq).2.staff_transact.any
      (fun r => r.tr_t_id == "T00001") = true ∧
    (postTransaction c5Db c5DupReq).2.inventory = c5Db.inventory :=
  ⟨by decide, by decide, by decide, by decide⟩

/-- Witness for the amended C5: the staff-link failure is answered by a
compensating delete that removes the transaction row; stock is untouched. -/
theorem post_compensation_witness :
    WF c5Db ∧
    postTransaction c5Db c5StaffReq =
      (.error (.opFailed .staffLink), (postTransaction c5Db c5StaffReq).2) ∧
    FailStep.staffLink ≠ FailStep.insertTx ∧
    ((postTransaction c5Db c5StaffReq).2.inventory = c5Db.inventory ∧
     (FailStep.staffLink = FailStep.staffLink →
       (postTransaction c5Db c5StaffReq).2.transaction = c5Db.transaction) ∧
     ((FailStep.staffLink = FailStep.printerLink ∨
       FailStep.staffLink = FailStep.inventoryLink) →
       ∃ row ∈ (postTransaction c5Db c5StaffReq).2.transaction,
         row.t_id = genTxId c5Db.transaction)) :=
  ⟨by decide, by decide, by decide,
    post_compensation c5Db c5StaffReq .staffLink (postTransaction c5Db c5StaffReq).2
      (by decide) (by decide) (by decide)⟩

/-! ## The successful posting path -/

/-- What the reservation loop computes when it succeeds. -/
theorem processItems_ok_inv (db : Store) :
    ∀ (items : List RequestItem) (acc : Int) (ins : List TIInsert)
      (total : Int) (out : List TIInsert),
    processItems db acc ins items = .ok (total, out) →
    total = acc + (items.map (lineCharge db)).sum ∧
    out = ins ++ items.map (fun it => (⟨it.i_id, it.quantity⟩ : TIInsert)) ∧
    ∀ it ∈ items, ∃ inv, lookupInventory db it.i_id = some inv ∧
      ¬ inv.i_stock < it.quantity
  | [], acc, ins, total, out, h => by
    simp only [processItems, Except.ok.injEq, Prod.mk.injEq] at h
    simp [← h.1, ← h.2]
  | item :: rest, acc, ins, total, out, h => by
    simp only [processItems] at h
    cases hinv : lookupInventory db item.i_id with
    | none =>
      rw [hinv] at h
      simp at h
    | some inv =>
      rw [hinv] at h
      by_cases hlt : inv.i_stock < item.quantity
      · simp [hlt] at h
      · have h' : processItems db (acc + inv.i_price * item.quantity)
            (ins ++ [⟨item.i_id, item.quantity⟩]) rest = .ok (total, out) := by
          rw [← h]
          simp [hlt]
        obtain ⟨h1, h2, h3⟩ := processItems_ok_inv db rest
          (acc + inv.i_price * item.quantity) (ins ++ [⟨item.i_id, item.quantity⟩])
          total out h'
        refine ⟨?_, ?_, ?_⟩
        · rw [h1]
          simp only [List.map_cons, List.sum_cons, lineCharge, hinv]
          simp [add_assoc]
        · rw [h2]
          simp
        · intro it hmem
          rcases List.mem_cons.mp hmem with hh | hh
          · exact hh ▸ ⟨inv, hinv, hlt⟩
          · exact h3 it hh

/-- Full inversion of a successful `postTransaction`: the candidate total is
the spec's formula, the returned total is the benefit application at that
candidate, the generated id is fresh, the inserted line keys are distinct,
and the final store is the original plus exactly the new transaction row,
the association rows, the trigger-updated membership table, and the
trigger-decremented stock. -/
theorem postTransaction_ok_inv {db : Store} {req : TransactionPayload}
    {r : String × Int} {fdb : Store}
    (h : postTransaction db req = (.ok r, fdb)) :
    (∀ it ∈ req.inventory_items, ∃ inv, lookupInventory db it.i_id = some inv ∧
      ¬ inv.i_stock < it.quantity) ∧
    ((newTIRows db req).map fun x => (x.transaction_t_id, x.inventory_i_id)).Nodup ∧
    (∀ x ∈ db.transaction, x.t_id ≠ genTxId db.transaction) ∧
    r.1 = genTxId db.transaction ∧
    r.2 = (trg_process_membership_benefits db req.customer_c_id
      (specCandidateTotal db req)).1 ∧
    fdb = { db with
      transaction := db.transaction ++
        [{ t_id := genTxId db.transaction, t_datetime := db.current_date,
           t_totalprice := r.2, t_paymentmethod := req.t_paymentmethod,
           customer_c_id := req.customer_c_id,
           t_paperscount := req.printer_papers_count.getD 0 }],
      membership := (trg_process_membership_benefits db req.customer_c_id
        (specCandidateTotal db req)).2,
      staff_transact := db.staff_transact ++ [⟨req.staff_s_id, genTxId db.transaction⟩],
      printer_transaction := db.printer_transaction ++
        (if req.printer_p_id ≠ "" then [⟨req.printer_p_id, genTxId db.transaction⟩]
         else []),
      transaction_inventory := db.transaction_inventory ++ newTIRows db req,
      inventory := (newTIRows db req).foldl trg_reduce_inventory_stock_after_purchase
        db.inventory } := by
  simp only [postTransaction] at h
  split at h
  · simp at h
  split at h
  · simp at h
  split at h
  · simp at h
  split at h
  case _ e heq => simp at h
  case _ subtotal inserts heq =>
    obtain ⟨hsub, hins, hstockok⟩ := processItems_ok_inv db req.inventory_items 0 []
      subtotal inserts heq
    rw [zero_add] at hsub
    split at h
    case _ e heq2 => simp at h
    case _ total heq2 =>
      have htotal : total = specCandidateTotal db req := by
        unfold specCandidateTotal
        split at heq2
        next hcond =>
          split at heq2
          · rw [← Except.ok.inj heq2, hsub, if_pos hcond]
          · simp at heq2
        next hcond =>
          rw [← Except.ok.inj heq2, hsub, if_neg hcond]
          simp
      split at h
      case _ u heqTx => simp at h
      case _ db1 row heqTx =>
        obtain ⟨hrow, hdb1, hany⟩ := insertTransaction_ok_inv heqTx
        have hfresh : ∀ x ∈ db.transaction, ¬ x.t_id = genTxId db.transaction := by
          simpa using hany
        split at h
        case _ u heqSt => simp at h
        case _ db2 heqSt =>
          have hdb2 := insertStaffTransact_ok_inv heqSt
          split at h
          case _ u heqPr => simp at h
          case _ db3 heqPr =>
            have hdb3 : db3 = { db2 with printer_transaction := db2.printer_transaction ++
                (if req.printer_p_id ≠ "" then
                  [⟨req.printer_p_id, genTxId db.transaction⟩] else []) } := by
              split at heqPr
              next hcond =>
                rw [insertPrinterTransaction_ok_inv heqPr, if_pos hcond]
              next hcond =>
                rw [← Except.ok.inj heqPr, if_neg hcond]
                simp
            split at h
            case _ u heqTi => simp at h
            case _ db4 heqTi =>
              have hrows : inserts.map (fun item =>
                  (⟨genTxId db.transaction, item.inventory_i_id, item.quantity⟩ :
                    TransactionInventory)) = newTIRows db req := by
                rw [hins]
                unfold newTIRows
                simp
              have hdb4 : ((newTIRows db req).map fun x =>
                    (x.transaction_t_id, x.inventory_i_id)).Nodup ∧
                  db4 = { db3 with
                    transaction_inventory := db3.transaction_inventory ++ newTIRows db req,
                    inventory := (newTIRows db req).foldl
                      trg_reduce_inventory_stock_after_purchase db3.inventory } := by
                split at heqTi
                next hcond =>
                  obtain ⟨hnd, hform⟩ := insertTransactionInventory_ok_inv heqTi
                  rw [hrows] at hnd hform
                  exact ⟨hnd, hform⟩
                next hcond =>
                  have hinsnil : inserts = [] := not_not.mp hcond
                  have hitemsnil : req.inventory_items = [] := by
                    rw [hinsnil] at hins
                    exact List.map_eq_nil.mp hins.symm
                  have hrowsnil : newTIRows db req = [] := by
                    unfold newTIRows
                    rw [hitemsnil]
                    rfl
                  rw [← Except.ok.inj heqTi, hrowsnil]
                  simp
              injection h with h1 h2
              have hxy : (row.t_id, row.t_totalprice) = r := Except.ok.inj h1
              subst hxy
              have hrowid : row.t_id = genTxId db.transaction := by rw [hrow]
              have hrowprice : row.t_totalprice =
                  (trg_process_membership_benefits db req.customer_c_id
                    (specCandidateTotal db req)).1 := by
                rw [hrow, ← htotal]
              refine ⟨hstockok, hdb4.1, hfresh, hrowid, hrowprice, ?_⟩
              rw [← h2, hdb4.2, hdb3, hdb2, hdb1, hrow]
              simp only [htotal]

/-! ## C8: the candidate total is `Σ quantity × unitPrice + paper charge` -/

/-- Claim C8. For every posting request that succeeds, the candidate total
passed to benefit application equals
`Σ (quantity × unitPrice) + (printer with paperCount > 0 ? paperCount ×
PRINTER_USAGE_PRICE_PER_PAPER : 0)` (`specCandidateTotal`, written from the
claim's words): the returned final total is the benefit application at
exactly that candidate, and so is the persisted transaction row's total. -/
theorem post_candidate_total (db : Store) (req : TransactionPayload)
    (r : String × Int) (fdb : Store) (h : postTransaction db req = (.ok r, fdb)) :
    r.2 = (trg_process_membership_benefits db req.customer_c_id
      (specCandidateTotal db req)).1 ∧
    ∃ row ∈ fdb.transaction, row.t_id = r.1 ∧ row.t_totalprice = r.2 := by
  obtain ⟨-, -, -, h4, h5, h6⟩ := postTransaction_ok_inv h
  have hrow : ({ t_id := genTxId db.transaction, t_datetime := db.current_date,
                 t_totalprice := r.2, t_paymentmethod := req.t_paymentmethod,
                 customer_c_id := req.customer_c_id,
                 t_paperscount := req.printer_papers_count.getD 0 } : Transaction) ∈
      fdb.transaction := by
    rw [h6]
    simp
  exact ⟨h5, _, hrow, h4.symm, rfl⟩

/-- Witness for C8: candidate `2 × 150000.00 + 3 × 500.00 = 301500.00`;
the 10000-point membership redeems 10000, so the final total is
`291500.00` (hundredths `29150000`). -/
theorem post_candidate_total_witness :
    postTransaction c8Db c8Req =
      (.ok ("T00001", 29150000), (postTransaction c8Db c8Req).2) ∧
    ((("T00001", 29150000) : String × Int).2 =
      (trg_process_membership_benefits c8Db c8Req.customer_c_id
        (specCandidateTotal c8Db c8Req)).1 ∧
     ∃ row ∈ (postTransaction c8Db c8Req).2.transaction,
       row.t_id = (("T00001", 29150000) : String × Int).1 ∧
       row.t_totalprice = (("T00001", 29150000) : String × Int).2) :=
  ⟨by decide,
    post_candidate_total c8Db c8Req ("T00001", 29150000)
      (postTransaction c8Db c8Req).2 (by decide)⟩

/-! ## C2: stock decrement on posting, stock restoration on reversal -/

theorem stockOf_eq_stockOfInv (db : Store) (i : String) :
    stockOf db i = stockOfInv db.inventory i := rfl

theorem qtySum_nil (i : String) : qtySum [] i = 0 := rfl

theorem qtySum_cons (r : TransactionInventory) (rest : List TransactionInventory)
    (i : String) :
    qtySum (r :: rest) i =
      (if r.inventory_i_id = i then r.quantity else 0) + qtySum rest i := by
  unfold qtySum
  rw [List.filter_cons]
  by_cases hid : r.inventory_i_id = i
  · rw [if_pos (by simp [hid]), if_pos hid]
    simp
  · rw [if_neg (by simp [hid]), if_neg hid]
    simp

/-- Folding the stock-reduction trigger over a row list decrements each
item's stock by the total quantity the rows carry for it. -/
theorem foldl_decrement (rows : List TransactionInventory) (inv : List InventoryItem) :
    rows.foldl trg_reduce_inventory_stock_after_purchase inv =
      inv.map fun it => { it with i_stock := it.i_stock - qtySum rows it.i_id } := by
  induction rows generalizing inv with
  | nil =>
    have hid : ∀ it : InventoryItem,
        ({ it with i_stock := it.i_stock - qtySum [] it.i_id } : InventoryItem) = it := by
      intro it
      cases it
      simp [qtySum_nil]
    simp [hid]
  | cons r rest ih =>
    rw [List.foldl_cons, ih]
    unfold trg_reduce_inventory_stock_after_purchase
    rw [List.map_map]
    congr 1
    funext it
    by_cases hid : it.i_id = r.inventory_i_id
    · simp only [Function.comp, if_pos hid]
      have hq : qtySum (r :: rest) it.i_id = r.quantity + qtySum rest it.i_id := by
        rw [qtySum_cons, if_pos hid.symm]
      rw [hq]
      simp [sub_sub]
    · simp only [Function.comp, if_neg hid]
      have hq : qtySum (r :: rest) it.i_id = qtySum rest it.i_id := by
        rw [qtySum_cons, if_neg (fun he => hid he.symm)]
        simp
      rw [hq]

/-- Lemma: `find?` by id commutes with a map that preserves ids. -/
theorem find?_map_preserving (inv : List InventoryItem)
    (g : InventoryItem → InventoryItem) (hg : ∀ it, (g it).i_id = it.i_id)
    (i : String) :
    (inv.map g).find? (fun it => it.i_id == i) =
      (inv.find? fun it => it.i_id == i).map g := by
  rw [List.find?_map]
  have hcomp : ((fun it : InventoryItem => it.i_id == i) ∘ g) =
      fun it : InventoryItem => it.i_id == i := by
    funext it
    simp [Function.comp, hg]
  rw [hcomp]

theorem restoreStockFold_cons (inv : List InventoryItem)
    (rs : TransactionInventory × Option InventoryItem)
    (rest : List (TransactionInventory × Option InventoryItem)) :
    restoreStockFold inv (rs :: rest) = restoreStockFold (restoreStep inv rs) rest := rfl

/-- A restore step for a different item id does not change the stock the
lookup reports for `i`. -/
theorem stockOfInv_restoreStep_ne (inv : List InventoryItem)
    (rs : TransactionInventory × Option InventoryItem) (i : String)
    (hne : rs.1.inventory_i_id ≠ i) :
    stockOfInv (restoreStep inv rs) i = stockOfInv inv i := by
  obtain ⟨r0, snap⟩ := rs
  cases snap with
  | none => rfl
  | some d =>
    simp only [restoreStep]
    split
    · rfl
    · unfold stockOfInv
      rw [find?_map_preserving _ _ (fun it => by split <;> rfl) i]
      cases hf : inv.find? (fun it => it.i_id == i) with
      | none => rfl
      | some x =>
        have hx : x.i_id = i := by simpa using List.find?_some hf
        simp only [Option.map_map, Option.map_some]
        have : (if x.i_id = r0.inventory_i_id then
            ({ x with i_stock := d.i_stock + r0.quantity } : InventoryItem) else x) = x := by
          rw [if_neg (by rw [hx]; exact fun he => hne he.symm)]
        simp [Function.comp, this]

/-- If no fetched line targets item id `i`, the restore fold leaves its
stock unchanged. -/
theorem restoreStockFold_stockOf_ne
    (fetched : List (TransactionInventory × Option InventoryItem)) :
    ∀ (inv : List InventoryItem) (i : String),
    (∀ rs ∈ fetched, rs.1.inventory_i_id ≠ i) →
    stockOfInv (restoreStockFold inv fetched) i = stockOfInv inv i := by
  induction fetched with
  | nil => intro inv i _; rfl
  | cons rs rest ih =>
    intro inv i hall
    rw [restoreStockFold_cons, ih _ i (fun x hx => hall x (List.mem_cons_of_mem _ hx)),
      stockOfInv_restoreStep_ne inv rs i (hall rs (List.mem_cons_self _ _))]

/-- If the fetched lines' item ids are distinct, the line for `r0` (with
snapshot `d`) sets the reported stock for its item to
`d.i_stock + r0.quantity` (provided that write passes the check). -/
theorem restoreStockFold_stockOf_hit
    (fetched : List (TransactionInventory × Option InventoryItem)) :
    ∀ (inv : List InventoryItem) (r0 : TransactionInventory) (d : InventoryItem),
    (r0, some d) ∈ fetched →
    (fetched.map fun rs => rs.1.inventory_i_id).Nodup →
    ¬ d.i_stock + r0.quantity < 0 →
    stockOfInv (restoreStockFold inv fetched) r0.inventory_i_id =
      (stockOfInv inv r0.inventory_i_id).map fun _ => d.i_stock + r0.quantity := by
  induction fetched with
  | nil => intro inv r0 d hmem; cases hmem
  | cons rs rest ih =>
    intro inv r0 d hmem hnd hge
    simp only [List.map_cons] at hnd
    have hnd' := List.nodup_cons.mp hnd
    rcases List.mem_cons.mp hmem with heq | hmemrest
    · subst heq
      rw [restoreStockFold_cons]
      rw [restoreStockFold_stockOf_ne rest _ _ ?_]
      · simp only [restoreStep, if_neg hge]
        unfold stockOfInv
        rw [find?_map_preserving _ _ (fun it => by split <;> rfl) _]
        cases hf : inv.find? (fun it => it.i_id == r0.inventory_i_id) with
        | none => rfl
        | some x =>
          have hx : x.i_id = r0.inventory_i_id := by simpa using List.find?_some hf
          simp [Function.comp, hx]
      · intro rs' hrs' heq'
        exact hnd'.1 (heq' ▸ List.mem_map_of_mem (fun rs => rs.1.inventory_i_id) hrs')
    · have hne : rs.1.inventory_i_id ≠ r0.inventory_i_id := by
        intro he
        exact hnd'.1 (he ▸ List.mem_map_of_mem (fun rs => rs.1.inventory_i_id) hmemrest)
      rw [restoreStockFold_cons, ih _ r0 d hmemrest hnd'.2 hge,
        stockOfInv_restoreStep_ne inv rs _ hne]

/-- Distinct `(constant, id)` pairs have distinct ids. -/
theorem nodup_ids_of_nodup_pairs {l : List RequestItem} {c : String}
    (h : (l.map fun it => (c, it.i_id)).Nodup) : (l.map RequestItem.i_id).Nodup := by
  induction l with
  | nil => simp
  | cons a rest ih =>
    simp only [List.map_cons, List.nodup_cons] at h ⊢
    refine ⟨?_, ih h.2⟩
    intro hmem
    obtain ⟨b, hb, hbid⟩ := List.mem_map.mp hmem
    exact h.1 (List.mem_map.mpr ⟨b, hb, by rw [hbid]⟩)

/-- With distinct ids, filtering a member's id keeps exactly that member. -/
theorem filter_eq_singleton_of_nodup :
    ∀ (items : List RequestItem) (it : RequestItem),
    (items.map RequestItem.i_id).Nodup → it ∈ items →
    items.filter (fun x => x.i_id == it.i_id) = [it] := by
  intro items
  induction items with
  | nil => intro it _ hmem; cases hmem
  | cons a rest ih =>
    intro it hnd hmem
    simp only [List.map_cons, List.nodup_cons] at hnd
    rcases List.mem_cons.mp hmem with heq | hmem2
    · subst heq
      have hrest : rest.filter (fun x => x.i_id == it.i_id) = [] := by
        rw [List.filter_eq_nil]
        intro x hx
        simp only [beq_iff_eq]
        intro he
        exact hnd.1 (List.mem_map.mpr ⟨x, hx, he⟩)
      rw [List.filter_cons, if_pos (by simp), hrest]
    · have hne : a.i_id ≠ it.i_id := by
        intro he
        exact hnd.1 (he ▸ List.mem_map.mpr ⟨it, hmem2, rfl⟩)
      rw [List.filter_cons, if_neg (by simp [hne]), ih it hnd.2 hmem2]

/-- For a line of the request, the inserted rows carry exactly that line's
quantity for its item. -/
theorem qtySum_newTIRows (db : Store) (req : TransactionPayload) (it : RequestItem)
    (hnd : (req.inventory_items.map RequestItem.i_id).Nodup)
    (hmem : it ∈ req.inventory_items) :
    qtySum (newTIRows db req) it.i_id = it.quantity := by
  unfold qtySum newTIRows
  rw [List.filter_map]
  have hcomp : ((fun r : TransactionInventory => r.inventory_i_id == it.i_id) ∘
      fun x : RequestItem =>
        (⟨genTxId db.transaction, x.i_id, x.quantity⟩ : TransactionInventory)) =
      fun x : RequestItem => x.i_id == it.i_id := rfl
  rw [hcomp, filter_eq_singleton_of_nodup req.inventory_items it hnd hmem]
  simp

theorem genTxId_ne_empty (ts : List Transaction) : genTxId ts ≠ "" := by
  unfold genTxId
  split
  · intro h
    have := congrArg String.data h
    rw [String.data_append] at this
    simp at this
  · decide

theorem length_filter_lt {α : Type} (p : α → Bool) (l : List α) (x : α)
    (hx : x ∈ l) (hpx : p x = false) : (l.filter p).length < l.length := by
  induction l with
  | nil => cases hx
  | cons a rest ih =>
    rcases List.mem_cons.mp hx with heq | hmem
    · subst heq
      rw [List.filter_cons, if_neg (by simp [hpx])]
      exact Nat.lt_succ_of_le (List.length_filter_le _ _)
    · rw [List.filter_cons]
      split
      · simpa using Nat.succ_lt_succ (ih hmem)
      · exact Nat.lt_succ_of_lt (ih hmem)

/-- A reversal of an id that some transaction row carries succeeds, and the
resulting store is the definition's success branch: restored stock, the
three association tables and the transaction table filtered. -/
theorem reverseTransaction_ok (db : Store) (t : String) (ht : t ≠ "")
    (hmem : ∃ x ∈ db.transaction, x.t_id = t) :
    reverseTransaction db t = (.ok (),
      { db with
          inventory := restoreStockFold db.inventory
            ((db.transaction_inventory.filter fun r => r.transaction_t_id == t).map
              fun r => (r, lookupInventory db r.inventory_i_id)),
          transaction := db.transaction.filter (fun x => !(x.t_id == t)),
          transaction_inventory := db.transaction_inventory.filter
            (fun r => !(r.transaction_t_id == t)),
          printer_transaction := db.printer_transaction.filter
            (fun r => !(r.transaction_t_id == t)),
          staff_transact := db.staff_transact.filter (fun r => !(r.tr_t_id == t)) }) := by
  obtain ⟨x, hx, hxt⟩ := hmem
  have hlen : ¬ db.transaction.length =
      (db.transaction.filter (fun y => !(y.t_id == t))).length := by
    have := length_filter_lt (fun y => !(y.t_id == t)) db.transaction x hx (by simp [hxt])
    omega
  simp only [reverseTransaction, if_neg ht]
  rw [if_neg hlen]

/-- Claim C2. For every successful posting with inventory lines
`[(item_i, q_i)]` on a well-formed store, each line's item has its stock
decremented by exactly `q_i`; and reversing the posted transaction succeeds
and increments each of those items' stock by exactly `q_i` again (back to
the pre-posting value). -/
theorem post_then_reverse_stock (db : Store) (req : TransactionPayload)
    (r : String × Int) (fdb : Store) (hwf : WF db)
    (h : postTransaction db req = (.ok r, fdb)) :
    (∀ it ∈ req.inventory_items,
      stockOf fdb it.i_id = (stockOf db it.i_id).map fun s => s - it.quantity) ∧
    ∃ rdb, reverseTransaction fdb r.1 = (.ok (), rdb) ∧
      ∀ it ∈ req.inventory_items,
        stockOf rdb it.i_id = (stockOf fdb it.i_id).map fun s => s + it.quantity := by
  obtain ⟨hfkti, hfkst, hfkpt, hstocknn⟩ := hwf
  obtain ⟨hstockok, hnd, hfresh, h4, h5, h6⟩ := postTransaction_ok_inv h
  have hndids : (req.inventory_items.map RequestItem.i_id).Nodup := by
    apply nodup_ids_of_nodup_pairs (c := genTxId db.transaction)
    have hpairs : ((newTIRows db req).map fun x => (x.transaction_t_id, x.inventory_i_id)) =
        req.inventory_items.map fun it => (genTxId db.transaction, it.i_id) := by
      unfold newTIRows
      rw [List.map_map]
      rfl
    rw [← hpairs]
    exact hnd
  -- the decrement map applied by the posting
  have hfdbinv : fdb.inventory = db.inventory.map
      (fun x => { x with i_stock := x.i_stock - qtySum (newTIRows db req) x.i_id }) := by
    rw [h6]
    exact foldl_decrement (newTIRows db req) db.inventory
  have hgid : ∀ x : InventoryItem,
      (({ x with i_stock := x.i_stock - qtySum (newTIRows db req) x.i_id } :
        InventoryItem)).i_id = x.i_id := fun _ => rfl
  -- how a lookup reads through the posted store
  have hlook : ∀ (i : String), lookupInventory fdb i =
      (db.inventory.find? fun x => x.i_id == i).map
        (fun x => { x with i_stock := x.i_stock - qtySum (newTIRows db req) x.i_id }) := by
    intro i
    unfold lookupInventory
    rw [hfdbinv, find?_map_preserving _ _ hgid i]
  have partA : ∀ it ∈ req.inventory_items,
      stockOf fdb it.i_id = (stockOf db it.i_id).map fun s => s - it.quantity := by
    intro it hit
    obtain ⟨inv, hinv, -⟩ := hstockok it hit
    have hfind : db.inventory.find? (fun x => x.i_id == it.i_id) = some inv := hinv
    have hinvid : inv.i_id = it.i_id := by simpa using List.find?_some hfind
    have hq : qtySum (newTIRows db req) it.i_id = it.quantity :=
      qtySum_newTIRows db req it hndids hit
    unfold stockOf
    rw [hlook it.i_id, hfind]
    unfold lookupInventory
    rw [hfind]
    simp [hinvid, hq]
  refine ⟨partA, ?_⟩
  have ht : r.1 ≠ "" := by
    rw [h4]
    exact genTxId_ne_empty _
  have hmemt : ∃ x ∈ fdb.transaction, x.t_id = r.1 := by
    rw [h6, h4]
    refine ⟨{ t_id := genTxId db.transaction, t_datetime := db.current_date,
              t_totalprice := r.2, t_paymentmethod := req.t_paymentmethod,
              customer_c_id := req.customer_c_id,
              t_paperscount := req.printer_papers_count.getD 0 }, ?_, rfl⟩
    simp
  have hrev := reverseTransaction_ok fdb r.1 ht hmemt
  refine ⟨_, hrev, ?_⟩
  intro it hit
  -- the lines fetched by the reversal are exactly the posted rows
  have hfil : fdb.transaction_inventory.filter (fun x => x.transaction_t_id == r.1) =
      newTIRows db req := by
    have hsplit : fdb.transaction_inventory =
        db.transaction_inventory ++ newTIRows db req := by
      rw [h6]
    rw [hsplit, List.filter_append]
    rw [List.filter_eq_nil.mpr ?_, List.filter_eq_self.mpr ?_]
    · simp
    · intro rr hrr
      unfold newTIRows at hrr
      obtain ⟨x, -, hxe⟩ := List.mem_map.mp hrr
      simp [← hxe, h4]
    · intro rr hrr
      obtain ⟨tx, htx, hid⟩ := hfkti rr hrr
      simp [h4, hid ▸ hfresh tx htx]
  -- per-line data
  obtain ⟨inv, hinv, -⟩ := hstockok it hit
  have hfind : db.inventory.find? (fun x => x.i_id == it.i_id) = some inv := hinv
  have hinvid : inv.i_id = it.i_id := by simpa using List.find?_some hfind
  have hq : qtySum (newTIRows db req) it.i_id = it.quantity :=
    qtySum_newTIRows db req it hndids hit
  set gdec : InventoryItem → InventoryItem :=
    fun x => { x with i_stock := x.i_stock - qtySum (newTIRows db req) x.i_id } with hgdec
  have hsnap : lookupInventory fdb it.i_id = some (gdec inv) := by
    rw [hlook it.i_id, hfind]
    rfl
  set rowIt : TransactionInventory := ⟨genTxId db.transaction, it.i_id, it.quantity⟩
    with hrowIt
  have hrowmem : rowIt ∈ newTIRows db req := by
    unfold newTIRows
    exact List.mem_map.mpr ⟨it, hit, rfl⟩
  have hpairmem : (rowIt, some (gdec inv)) ∈
      ((fdb.transaction_inventory.filter fun x => x.transaction_t_id == r.1).map
        fun rr => (rr, lookupInventory fdb rr.inventory_i_id)) := by
    rw [hfil]
    refine List.mem_map.mpr ⟨rowIt, hrowmem, ?_⟩
    have : rowIt.inventory_i_id = it.i_id := rfl
    rw [this, hsnap]
  have hfetchnd : (((fdb.transaction_inventory.filter
      fun x => x.transaction_t_id == r.1).map
        fun rr => (rr, lookupInventory fdb rr.inventory_i_id)).map
          fun rs => rs.1.inventory_i_id).Nodup := by
    rw [hfil]
    unfold newTIRows
    rw [List.map_map, List.map_map]
    exact hndids
  have hinvmem : inv ∈ db.inventory := List.mem_of_find?_eq_some hfind
  have hge : ¬ (gdec inv).i_stock + rowIt.quantity < 0 := by
    have h0 : (0 : Int) ≤ inv.i_stock := hstocknn inv hinvmem
    have : (gdec inv).i_stock = inv.i_stock - it.quantity := by
      rw [hgdec]
      simp [hinvid, hq]
    rw [this]
    have : rowIt.quantity = it.quantity := rfl
    omega
  have hhit := restoreStockFold_stockOf_hit
    ((fdb.transaction_inventory.filter fun x => x.transaction_t_id == r.1).map
      fun rr => (rr, lookupInventory fdb rr.inventory_i_id))
    fdb.inventory rowIt (gdec inv) hpairmem hfetchnd hge
  have hrid : rowIt.inventory_i_id = it.i_id := rfl
  rw [hrid] at hhit
  -- read the conclusion back through `stockOf`
  have hstockfdb : stockOf fdb it.i_id = some (inv.i_stock - it.quantity) := by
    unfold stockOf
    rw [hsnap]
    simp [hgdec, hinvid, hq]
  have hval : (gdec inv).i_stock + rowIt.quantity = inv.i_stock := by
    have h1 : (gdec inv).i_stock = inv.i_stock - it.quantity := by
      rw [hgdec]
      simp [hinvid, hq]
    have h2 : rowIt.quantity = it.quantity := rfl
    rw [h1, h2]
    ring
  rw [show stockOf
      ({ fdb with
          inventory := restoreStockFold fdb.inventory
            ((fdb.transaction_inventory.filter fun rr => rr.transaction_t_id == r.1).map
              fun rr => (rr, lookupInventory fdb rr.inventory_i_id)),
          transaction := fdb.transaction.filter (fun x => !(x.t_id == r.1)),
          transaction_inventory := fdb.transaction_inventory.filter
            (fun rr => !(rr.transaction_t_id == r.1)),
          printer_transaction := fdb.printer_transaction.filter
            (fun rr => !(rr.transaction_t_id == r.1)),
          staff_transact := fdb.staff_transact.filter
            (fun rr => !(rr.tr_t_id == r.1)) } : Store) it.i_id =
      stockOfInv (restoreStockFold fdb.inventory
        ((fdb.transaction_inventory.filter fun rr => rr.transaction_t_id == r.1).map
          fun rr => (rr, lookupInventory fdb rr.inventory_i_id))) it.i_id from rfl]
  rw [hhit, hval, hstockfdb]
  have hfdbfix : stockOfInv fdb.inventory it.i_id = some (inv.i_stock - it.quantity) := by
    rw [← stockOf_eq_stockOfInv]
    exact hstockfdb
  rw [hfdbfix]
  simp

/-- Witness for C2: posting 2 units of `I00001` (stock 50) takes the stock
to 48; reversing the posted transaction brings it back to 50. -/
theorem post_then_reverse_stock_witness :
    WF c8Db ∧
    postTransaction c8Db c8Req =
      (.ok ("T00001", 29150000), (postTransaction c8Db c8Req).2) ∧
    ((∀ it ∈ c8Req.inventory_items,
        stockOf (postTransaction c8Db c8Req).2 it.i_id =
          (stockOf c8Db it.i_id).map fun s => s - it.quantity) ∧
      ∃ rdb, reverseTransaction (postTransaction c8Db c8Req).2
          (("T00001", (29150000 : Int)) : String × Int).1 = (.ok (), rdb) ∧
        ∀ it ∈ c8Req.inventory_items,
          stockOf rdb it.i_id =
            (stockOf (postTransaction c8Db c8Req).2 it.i_id).map
              fun s => s + it.quantity) :=
  ⟨by decide, by decide,
    post_then_reverse_stock c8Db c8Req ("T00001", 29150000)
      (postTransaction c8Db c8Req).2 (by decide) (by decide)⟩

/-! ## C7: sequential id generation

`genTxId` takes the id that sorts last (`ORDER BY t_id DESC LIMIT 1`),
parses its numeric suffix, and renders the successor zero-padded.  To
reason about it we characterise decimal rendering (`Nat.repr`) and compare
fixed-width digit strings. -/

theorem digitChar_strictMono : ∀ d : Nat, d < 10 → ∀ e : Nat, e < 10 →
    d < e → Nat.digitChar d < Nat.digitChar e := by decide

theorem digitChar_isDigit : ∀ d : Nat, d < 10 → (Nat.digitChar d).isDigit = true := by
  decide

theorem digitChar_toNat : ∀ d : Nat, d < 10 → (Nat.digitChar d).toNat - '0'.toNat = d := by
  decide

/-- Lemma: `Nat.toDigitsCore` with enough fuel produces the digits of `n`. -/
theorem toDigitsCore_eq : ∀ (f : Nat), ∀ (n : Nat) (ds : List Char), n < 10 ^ f →
    Nat.toDigitsCore 10 (f + 1) n ds = natChars n ++ ds := by
  intro f
  induction f with
  | zero =>
    intro n ds h
    have hn : n = 0 := by omega
    subst hn
    have h0 : natChars 0 = ['0'] := by
      rw [natChars, dif_pos (by norm_num)]
      decide
    rw [h0]
    rfl
  | succ f ih =>
    intro n ds h
    by_cases h10 : n < 10
    · have hdiv : n / 10 = 0 := Nat.div_eq_of_lt h10
      have hmod : n % 10 = n := Nat.mod_eq_of_lt h10
      rw [Nat.toDigitsCore]
      simp only [hdiv, if_pos rfl]
      rw [natChars, dif_pos h10, hmod]
      rfl
    · have hdiv : ¬ n / 10 = 0 := by
        intro h0
        have := Nat.div_eq_of_lt (show n < 10 by omega)
        omega
      rw [Nat.toDigitsCore]
      simp only [if_neg hdiv]
      have hlt : n / 10 < 10 ^ f := by
        rw [Nat.div_lt_iff_lt_mul (by norm_num)]
        calc n < 10 ^ (f + 1) := h
        _ = 10 ^ f * 10 := by ring
      have hn_eq : natChars n = natChars (n / 10) ++ [Nat.digitChar (n % 10)] := by
        conv_lhs => rw [natChars]
        rw [dif_neg h10]
      rw [ih (n / 10) (Nat.digitChar (n % 10) :: ds) hlt, hn_eq]
      simp

/-- Lemma: `Nat.repr` is the digit list, as a string. -/
theorem repr_eq_natChars (n : Nat) : Nat.repr n = (natChars n).asString := by
  unfold Nat.repr Nat.toDigits
  rw [toDigitsCore_eq n n [] (Nat.lt_pow_self (by norm_num) n)]
  simp [List.asString]

theorem natChars_length_pos (n : Nat) : 0 < (natChars n).length := by
  rw [natChars]
  split
  · simp
  · simp

theorem natChars_length_le : ∀ (n j : Nat), 0 < j → n < 10 ^ j →
    (natChars n).length ≤ j := by
  intro n
  induction n using Nat.strong_induction_on with
  | _ n ih =>
    intro j hj h
    by_cases h10 : n < 10
    · rw [natChars, dif_pos h10]
      simpa using hj
    · have h10' : 10 ≤ n := not_lt.mp h10
      have hj2 : 2 ≤ j := by
        by_contra hc
        have : j = 1 := by omega
        subst this
        simp at h
        omega
      rw [natChars, dif_neg h10]
      have hlt : n / 10 < 10 ^ (j - 1) := by
        rw [Nat.div_lt_iff_lt_mul (by norm_num)]
        calc n < 10 ^ j := h
        _ = 10 ^ (j - 1) * 10 := by
            rw [← pow_succ]
            congr 1
            omega
      have := ih (n / 10) (Nat.div_lt_self (by omega) (by omega)) (j - 1) (by omega) hlt
      simp only [List.length_append, List.length_singleton]
      omega

theorem digitsFixedR_zero : ∀ (j : Nat), digitsFixedR j 0 = List.replicate j '0' := by
  intro j
  induction j with
  | zero => rfl
  | succ j ih =>
    rw [digitsFixedR]
    simp only [Nat.zero_div, Nat.zero_mod, ih]
    rw [List.replicate_succ']
    rfl

theorem digitsFixedR_length : ∀ (j k : Nat), (digitsFixedR j k).length = j := by
  intro j
  induction j with
  | zero => intro k; rfl
  | succ j ih =>
    intro k
    rw [digitsFixedR]
    simp [ih]

/-- Padding the digit list of `k < 10^j` to width `j` gives the fixed-width
digits. -/
theorem replicate_natChars_eq_digitsFixedR : ∀ (j k : Nat), 0 < j → k < 10 ^ j →
    List.replicate (j - (natChars k).length) '0' ++ natChars k = digitsFixedR j k := by
  intro j
  induction j with
  | zero => intro k hj; omega
  | succ j ih =>
    intro k hj hk
    by_cases h10 : k < 10
    · have hdiv : k / 10 = 0 := Nat.div_eq_of_lt h10
      have hmod : k % 10 = k := Nat.mod_eq_of_lt h10
      rw [digitsFixedR, hdiv, digitsFixedR_zero, hmod]
      rw [natChars, dif_pos h10]
      simp
    · have hj1 : 0 < j := by
        by_contra hc
        have : j = 0 := by omega
        subst this
        simp at hk
        omega
      have hlt : k / 10 < 10 ^ j := by
        rw [Nat.div_lt_iff_lt_mul (by norm_num)]
        calc k < 10 ^ (j + 1) := hk
        _ = 10 ^ j * 10 := by ring
      have hih := ih (k / 10) hj1 hlt
      have hk_eq : natChars k = natChars (k / 10) ++ [Nat.digitChar (k % 10)] := by
        conv_lhs => rw [natChars]
        rw [dif_neg h10]
      have hkl : (natChars k).length = (natChars (k / 10)).length + 1 := by
        rw [hk_eq]
        simp
      have harith : j + 1 - ((natChars (k / 10)).length + 1) =
          j - (natChars (k / 10)).length := by omega
      rw [digitsFixedR, ← hih, hkl, hk_eq, harith, ← List.append_assoc]

/-- The characters of the padded rendering of `k < 100000` are its five
fixed-width digits. -/
theorem padStart5_toString_data (k : Nat) (hk : k < 100000) :
    (padStart5 (toString k)).data = digitsFixedR 5 k := by
  have htos : (toString k : String) = (natChars k).asString := repr_eq_natChars k
  have hdata : (toString k : String).data = natChars k := by
    rw [htos]
    rfl
  have hlen : (toString k : String).length = (natChars k).length := by
    rw [String.length, hdata]
  have hle : (natChars k).length ≤ 5 :=
    natChars_length_le k 5 (by norm_num) (by simpa using hk)
  have hfix := replicate_natChars_eq_digitsFixedR 5 k (by norm_num) (by simpa using hk)
  unfold padStart5
  by_cases hcase : (toString k : String).length < 5
  · rw [if_pos hcase, String.data_append]
    have : (String.mk (List.replicate (5 - (toString k : String).length) '0')).data =
        List.replicate (5 - (toString k : String).length) '0' := rfl
    rw [this, hdata, hlen]
    exact hfix
  · rw [if_neg hcase]
    have h5 : (natChars k).length = 5 := by omega
    rw [hdata, ← hfix, h5]
    simp

theorem canonicalTid_data (k : Nat) (hk : k < 100000) :
    (canonicalTid k).data = 'T' :: digitsFixedR 5 k := by
  unfold canonicalTid
  rw [String.data_append, padStart5_toString_data k hk]
  rfl

/-- Fixed-width digit lists order like their values (list lex order). -/
theorem list_lt_append_of_lt_of_length_eq :
    ∀ (l1 l2 x y : List Char), l1 < l2 → l1.length = l2.length → l1 ++ x < l2 ++ y := by
  intro l1 l2 x y h
  induction h with
  | nil => intro hlen; simp at hlen
  | cons _ ih =>
    intro hlen
    exact List.Lex.cons (ih (by simpa using hlen))
  | rel hab => intro _; exact List.Lex.rel hab

theorem list_lt_append_last (c d : Char) (h : c < d) :
    ∀ (p : List Char), p ++ [c] < p ++ [d] := by
  intro p
  induction p with
  | nil => exact List.Lex.rel h
  | cons e rest ih => exact List.Lex.cons ih

theorem digitsFixedR_lt : ∀ (j a b : Nat), a < b → b < 10 ^ j →
    digitsFixedR j a < digitsFixedR j b := by
  intro j
  induction j with
  | zero => intro a b hab hb; omega
  | succ j ih =>
    intro a b hab hb
    rw [digitsFixedR, digitsFixedR]
    rcases Nat.lt_or_ge (a / 10) (b / 10) with hdiv | hdiv
    · have hb10 : b / 10 < 10 ^ j := by
        rw [Nat.div_lt_iff_lt_mul (by norm_num)]
        calc b < 10 ^ (j + 1) := hb
        _ = 10 ^ j * 10 := by ring
      exact list_lt_append_of_lt_of_length_eq _ _ _ _ (ih _ _ hdiv hb10)
        (by rw [digitsFixedR_length, digitsFixedR_length])
    · have hdeq : a / 10 = b / 10 := by
        have : a / 10 ≤ b / 10 := Nat.div_le_div_right (Nat.le_of_lt hab)
        omega
      have hmod : a % 10 < b % 10 := by omega
      rw [hdeq]
      exact list_lt_append_last _ _
        (digitChar_strictMono _ (Nat.mod_lt _ (by norm_num)) _
          (Nat.mod_lt _ (by norm_num)) hmod) _

/-- The canonical renderings order like their values. -/
theorem canonicalTid_lt (a b : Nat) (hab : a < b) (hb : b < 100000) :
    canonicalTid a < canonicalTid b := by
  rw [String.lt_iff_toList_lt]
  have ha : (canonicalTid a).toList = 'T' :: digitsFixedR 5 a :=
    canonicalTid_data a (by omega)
  have hbl : (canonicalTid b).toList = 'T' :: digitsFixedR 5 b :=
    canonicalTid_data b hb
  rw [ha, hbl]
  exact List.Lex.cons (digitsFixedR_lt 5 a b hab (by simpa using hb))

theorem canonicalTid_le_mono (a b : Nat) (ha : a < 100000) (hb : b < 100000)
    (h : canonicalTid a ≤ canonicalTid b) : a ≤ b := by
  by_contra hc
  exact absurd h (not_le.mpr (canonicalTid_lt b a (by omega) ha))

theorem digitsFixedR_all_isDigit : ∀ (j k : Nat), ∀ c ∈ digitsFixedR j k,
    c.isDigit = true := by
  intro j
  induction j with
  | zero => intro k c hc; cases hc
  | succ j ih =>
    intro k c hc
    rw [digitsFixedR] at hc
    rcases List.mem_append.mp hc with h | h
    · exact ih (k / 10) c h
    · rw [List.mem_singleton.mp h]
      exact digitChar_isDigit (k % 10) (Nat.mod_lt _ (by norm_num))

theorem foldl_toNat_digitsFixedR : ∀ (j k acc : Nat), k < 10 ^ j →
    (digitsFixedR j k).foldl (fun n c => n * 10 + (c.toNat - '0'.toNat)) acc =
      acc * 10 ^ j + k := by
  intro j
  induction j with
  | zero =>
    intro k acc h
    have : k = 0 := by omega
    subst this
    simp [digitsFixedR]
  | succ j ih =>
    intro k acc h
    have hlt : k / 10 < 10 ^ j := by
      rw [Nat.div_lt_iff_lt_mul (by norm_num)]
      calc k < 10 ^ (j + 1) := h
      _ = 10 ^ j * 10 := by ring
    rw [digitsFixedR, List.foldl_append, ih (k / 10) acc hlt]
    simp only [List.foldl_cons, List.foldl_nil]
    rw [digitChar_toNat (k % 10) (Nat.mod_lt _ (by norm_num))]
    have hk10 : k / 10 * 10 + k % 10 = k := by omega
    calc (acc * 10 ^ j + k / 10) * 10 + k % 10
        = acc * (10 ^ j * 10) + (k / 10 * 10 + k % 10) := by ring
    _ = acc * 10 ^ (j + 1) + k := by rw [hk10, ← pow_succ]

/-- Reading a canonical id back: `parseInt(t_id.substring(1))` recovers the
value. -/
theorem tidValue_canonicalTid (k : Nat) (hk : k < 100000) :
    tidValue (canonicalTid k) = k := by
  unfold tidValue
  have hdrop : (canonicalTid k).drop 1 = ⟨digitsFixedR 5 k⟩ := by
    rw [String.drop_eq, canonicalTid_data k hk]
    rfl
  rw [hdrop]
  have hne : digitsFixedR 5 k ≠ [] := by
    intro h
    have := digitsFixedR_length 5 k
    rw [h] at this
    simp at this
  have hisnat : (⟨digitsFixedR 5 k⟩ : String).isNat = true := by
    unfold String.isNat
    rw [Bool.and_eq_true]
    constructor
    · cases hemp : (⟨digitsFixedR 5 k⟩ : String).isEmpty with
      | false => rfl
      | true => exact absurd (congrArg String.data ((String.isEmpty_iff _).mp hemp)) hne
    · rw [String.all_eq, List.all_eq_true]
      intro c hc
      exact digitsFixedR_all_isDigit 5 k c hc
  have htn : (⟨digitsFixedR 5 k⟩ : String).toNat? = some k := by
    unfold String.toNat?
    rw [if_pos hisnat, String.foldl_eq]
    have hf := foldl_toNat_digitsFixedR 5 k 0 (by simpa using hk)
    have hdata : (⟨digitsFixedR 5 k⟩ : String).data = digitsFixedR 5 k := rfl
    rw [hdata, hf]
    simp
  rw [htn]
  rfl

theorem foldl_max_spec {α : Type} [LinearOrder α] :
    ∀ (l : List α) (a : α),
      (l.foldl max a = a ∨ l.foldl max a ∈ l) ∧
      a ≤ l.foldl max a ∧ ∀ b ∈ l, b ≤ l.foldl max a := by
  intro l
  induction l with
  | nil =>
    intro a
    exact ⟨.inl rfl, le_refl a, by simp⟩
  | cons b bs ih =>
    intro a
    rw [List.foldl_cons]
    obtain ⟨hmem, hle, hub⟩ := ih (max a b)
    refine ⟨?_, ?_, ?_⟩
    · rcases hmem with h | h
      · rcases max_choice a b with hc | hc
        · exact .inl (by rw [h, hc])
        · exact .inr (by rw [h, hc]; exact List.mem_cons_self _ _)
      · exact .inr (List.mem_cons_of_mem _ h)
    · exact le_trans (le_max_left a b) hle
    · intro y hy
      rcases List.mem_cons.mp hy with hh | hh
      · subst hh
        exact le_trans (le_max_right a y) hle
      · exact hub y hh

/-- Query `ORDER BY ... DESC LIMIT 1` (`max?`) returns a member that bounds the
whole list. -/
theorem max?_spec {α : Type} [LinearOrder α] (l : List α) (a : α)
    (h : l.max? = some a) : a ∈ l ∧ ∀ b ∈ l, b ≤ a := by
  cases l with
  | nil => simp [List.max?] at h
  | cons x xs =>
    have ha : xs.foldl max x = a := by simpa [List.max?] using h
    obtain ⟨hmem, hle, hub⟩ := foldl_max_spec xs x
    rw [ha] at hmem hle hub
    constructor
    · rcases hmem with h1 | h1
      · rw [h1]
        exact List.mem_cons_self _ _
      · exact List.mem_cons_of_mem _ h1
    · intro b hb
      rcases List.mem_cons.mp hb with h1 | h1
      · rw [h1]
        exact hle
      · exact hub b h1

/-- Claim C7. If every existing transaction id is canonical (`T` followed by
the five-digit zero-padded decimal of a value ≤ 99998), the generated id is
the numeric value of the highest existing id plus one, rendered as `T`
followed by the five-digit zero-padded decimal; and it is `T00001` when no
transaction exists. -/
theorem genTxId_spec (ts : List Transaction)
    (hcanon : ∀ t ∈ ts, ∃ k, k ≤ 99998 ∧ t.t_id = canonicalTid k) :
    (ts = [] → genTxId ts = "T00001") ∧
    (ts ≠ [] → ∃ M, M ≤ 99998 ∧
      (∃ t ∈ ts, tidValue t.t_id = M) ∧
      (∀ t ∈ ts, tidValue t.t_id ≤ M) ∧
      genTxId ts = "T" ++ padStart5 (toString (M + 1)) ∧
      (padStart5 (toString (M + 1))).length = 5) := by
  constructor
  · intro h
    subst h
    rfl
  · intro hne
    obtain ⟨x, xs, rfl⟩ : ∃ x xs, ts = x :: xs := by
      cases ts with
      | nil => exact absurd rfl hne
      | cons x xs => exact ⟨x, xs, rfl⟩
    have hl : ((x :: xs).map Transaction.t_id).max? =
        some ((xs.map Transaction.t_id).foldl max x.t_id) := rfl
    obtain ⟨hmem, hub⟩ := max?_spec _ _ hl
    obtain ⟨tmax, htmax, htid⟩ := List.mem_map.mp hmem
    obtain ⟨ka, hka, hkid⟩ := hcanon tmax htmax
    have haeq : (xs.map Transaction.t_id).foldl max x.t_id = canonicalTid ka := by
      rw [← htid, hkid]
    have htidval : tidValue ((xs.map Transaction.t_id).foldl max x.t_id) = ka := by
      rw [haeq]
      exact tidValue_canonicalTid ka (by omega)
    have hgen : genTxId (x :: xs) = "T" ++ padStart5
        (toString (tidValue ((xs.map Transaction.t_id).foldl max x.t_id) + 1)) := by
      unfold genTxId
      rw [hl]
      rfl
    refine ⟨ka, hka, ⟨tmax, htmax, ?_⟩, ?_, ?_, ?_⟩
    · rw [htid]
      exact htidval
    · intro t ht
      obtain ⟨kb, hkb, hkbid⟩ := hcanon t ht
      have hble : t.t_id ≤ (xs.map Transaction.t_id).foldl max x.t_id :=
        hub _ (List.mem_map_of_mem _ ht)
      rw [hkbid, haeq] at hble
      have hkk := canonicalTid_le_mono kb ka (by omega) (by omega) hble
      rw [hkbid, tidValue_canonicalTid kb (by omega)]
      exact hkk
    · rw [hgen, htidval]
    · have hd := padStart5_toString_data (ka + 1) (by omega)
      have hlen : (padStart5 (toString (ka + 1))).length =
          (digitsFixedR 5 (ka + 1)).length := by
        rw [String.length, hd]
      rw [hlen, digitsFixedR_length]

/-- Witness for C7: over existing ids `T00005`, `T00002` the generated id
is `T00006` (value 5 + 1, five-digit zero-padded); over no transactions it
is `T00001`. -/
theorem genTxId_spec_witness :
    (∀ t ∈ c7Ts, ∃ k, k ≤ 99998 ∧ t.t_id = canonicalTid k) ∧
    genTxId [] = "T00001" ∧
    (∃ M, M ≤ 99998 ∧
      (∃ t ∈ c7Ts, tidValue t.t_id = M) ∧
      (∀ t ∈ c7Ts, tidValue t.t_id ≤ M) ∧
      genTxId c7Ts = "T" ++ padStart5 (toString (M + 1)) ∧
      (padStart5 (toString (M + 1))).length = 5) := by
  have hcanon : ∀ t ∈ c7Ts, ∃ k, k ≤ 99998 ∧ t.t_id = canonicalTid k := by
    intro t ht
    rcases List.mem_cons.mp ht with h | h
    · exact ⟨5, by norm_num, by subst h; decide⟩
    rcases List.mem_cons.mp h with h2 | h2
    · exact ⟨2, by norm_num, by subst h2; decide⟩
    · cases h2
  exact ⟨hcanon, (genTxId_spec [] (by simp)).1 rfl,
    (genTxId_spec c7Ts hcanon).2 (by decide)⟩

end MBD
